import Mathlib

/-!
# RLTrainingTimer: the training program list controller

A shallow embedding of
`src/Plugin/configuration/control/TrainingProgramListConfigurationControl.cpp`.

* `std::string` is `String`, `std::vector<T>` is `List T`,
  `std::chrono::milliseconds` is its tick count, an `Int`.
* `std::map<std::string, V>` is `StdMap V`: the entries in strictly increasing key order,
  which is the order a range-for over the map visits them in.
* A member function is a function from the object before the call to an `Outcome`: what the
  call returned or threw, the object when control leaves the call (a C++ exception does not
  roll the members back) and the calls made on the collaborators, in order.
* `uuid_generator::generateUUID()` is outside the translation unit: the string it returns
  is an argument of `addTrainingProgram`.
* The repository behind `_repository` is outside the translation unit as well: it is an
  argument of every function that reaches `notifyReceivers`.
* The JSON library is outside the translation unit: `json::parse` is an argument of
  `loadTrainingProgram`, and the conversions the macros of lines 23 and 24 generate are
  written out field by field over a small document type.
* The file dialog and the file system are an argument of `loadTrainingProgram`: the content
  found at the chosen path, if the path exists.
-/

namespace configuration

/-! ## Data model -/

/-- Modelled from the spec: the enumeration behind `TrainingProgramEntry::Type`, whose
declaration is in a header outside `src/` (plain timer, training-pack reference,
workshop-map reference). -/
inductive TrainingProgramEntryType where
  | plainTimer
  | trainingPack
  | workshopMap
deriving DecidableEq, Repr, Inhabited

/-- Modelled from the spec: `TrainingProgramEntry`, declared in a header outside `src/`.
The fields are the ones `NLOHMANN_DEFINE_TYPE_NON_INTRUSIVE` lists (line 23); `Type_` is the
member `Type`, which is a reserved word here. -/
structure TrainingProgramEntry where
  Name : String
  Duration : Int
  Type_ : TrainingProgramEntryType
  TrainingPackCode : String
  WorkshopMapPath : String
deriving DecidableEq, Repr, Inhabited

/-- Modelled from the spec: `TrainingProgramData`, declared in a header outside `src/`.
The fields are the ones `NLOHMANN_DEFINE_TYPE_NON_INTRUSIVE` lists (line 24). -/
structure TrainingProgramData where
  Id : String
  Name : String
  Duration : Int
  Entries : List TrainingProgramEntry
  ReadOnly : Bool
deriving DecidableEq, Repr

/-- The value `TrainingProgramData{ }` (line 57): empty strings, a zero duration, no entries
and a cleared flag. -/
instance : Inhabited TrainingProgramData := ⟨⟨"", "", 0, [], false⟩⟩

/-! ## `std::map<std::string, V>` -/

/-- The comparison of `std::less<std::string>`: lexicographic on the characters. -/
def keyLess (a b : String) : Bool := decide (a.data < b.data)

/-- Entries in strictly increasing key order. -/
def SortedKeys {V : Type} (l : List (String × V)) : Prop :=
  l.Pairwise (fun p q => keyLess p.1 q.1 = true)

/-- The node walk of `emplace`: the pair goes in front of the first larger key; an equal key
stops the walk and nothing is inserted. -/
def insertEntry {V : Type} (k : String) (v : V) : List (String × V) → List (String × V)
  | [] => [(k, v)]
  | (k', v') :: rest =>
    if keyLess k k' then (k, v) :: (k', v') :: rest
    else if keyLess k' k then (k', v') :: insertEntry k v rest
    else (k', v') :: rest

/-- The node walk of `find`. -/
def lookupEntry {V : Type} (k : String) : List (String × V) → Option V
  | [] => none
  | (k', v') :: rest => if k' = k then some v' else lookupEntry k rest

/-- The node removal of `erase(key)`. -/
def eraseEntry {V : Type} (k : String) (l : List (String × V)) : List (String × V) :=
  l.filter (fun p => decide (p.1 ≠ k))

theorem keyLess_iff (a b : String) : keyLess a b = true ↔ a < b := by
  simp [keyLess, String.lt_iff_toList_lt]

theorem keyLess_irrefl (a : String) : keyLess a a = false := by
  rw [Bool.eq_false_iff, Ne, keyLess_iff]
  exact lt_irrefl a

theorem keyLess_trans {a b c : String} (hab : keyLess a b = true) (hbc : keyLess b c = true) :
    keyLess a c = true := by
  rw [keyLess_iff] at *
  exact lt_trans hab hbc

theorem keyLess_asymm {a b : String} (hab : keyLess a b = true) : keyLess b a = false := by
  rw [Bool.eq_false_iff, Ne, keyLess_iff]
  rw [keyLess_iff] at hab
  exact lt_asymm hab

theorem eq_of_not_keyLess {a b : String} (hab : keyLess a b = false) (hba : keyLess b a = false) :
    a = b := by
  rw [Bool.eq_false_iff, Ne, keyLess_iff] at hab hba
  exact le_antisymm (not_lt.mp hba) (not_lt.mp hab)

theorem mem_insertEntry {V : Type} (k : String) (v : V) (l : List (String × V))
    (p : String × V) (hp : p ∈ insertEntry k v l) : p = (k, v) ∨ p ∈ l := by
  induction l with
  | nil => simpa [insertEntry] using hp
  | cons hd tl ih =>
    obtain ⟨k', v'⟩ := hd
    simp only [insertEntry] at hp
    split at hp
    · simpa using hp
    · split at hp
      · rcases List.mem_cons.mp hp with h | h
        · exact Or.inr (h ▸ List.mem_cons_self _ _)
        · rcases ih h with h | h
          · exact Or.inl h
          · exact Or.inr (List.mem_cons_of_mem _ h)
      · exact Or.inr hp

theorem sortedKeys_insertEntry {V : Type} (k : String) (v : V) (l : List (String × V))
    (hl : SortedKeys l) : SortedKeys (insertEntry k v l) := by
  induction l with
  | nil => simp [insertEntry, SortedKeys]
  | cons hd tl ih =>
    obtain ⟨k', v'⟩ := hd
    have hcons := List.pairwise_cons.mp hl
    simp only [insertEntry]
    split
    · rename_i hlt
      refine List.pairwise_cons.mpr ⟨?_, hl⟩
      intro q hq
      rcases List.mem_cons.mp hq with h | h
      · simpa [h] using hlt
      · exact keyLess_trans hlt (hcons.1 q h)
    · split
      · rename_i hgt
        refine List.pairwise_cons.mpr ⟨?_, ih hcons.2⟩
        intro q hq
        rcases mem_insertEntry k v tl q hq with h | h
        · simpa [h] using hgt
        · exact hcons.1 q h
      · exact hl

theorem sortedKeys_eraseEntry {V : Type} (k : String) (l : List (String × V))
    (hl : SortedKeys l) : SortedKeys (eraseEntry k l) :=
  List.Pairwise.filter _ hl

/-- The map `std::map<std::string, V>`: its entries in iteration order. -/
structure StdMap (V : Type) where
  entries : List (String × V)
  sorted : SortedKeys entries

namespace StdMap

variable {V : Type}

instance [DecidableEq V] : DecidableEq (StdMap V) := fun a b =>
  decidable_of_iff (a.entries = b.entries) (by
    cases a; cases b; simp)

/-- A default-constructed map. -/
def empty : StdMap V := ⟨[], List.Pairwise.nil⟩

/-- The keys, in iteration order. -/
def keys (m : StdMap V) : List String := m.entries.map Prod.fst

/-- The member `find`, as the mapped value when the key is present. -/
def find? (m : StdMap V) (k : String) : Option V := lookupEntry k m.entries

/-- The member `count`: 1 when the key is present, 0 otherwise. -/
def count (m : StdMap V) (k : String) : Nat := if (m.find? k).isSome then 1 else 0

/-- The member `emplace(key, value)`: inserts unless the key is present. -/
def emplace (m : StdMap V) (k : String) (v : V) : StdMap V :=
  ⟨insertEntry k v m.entries, sortedKeys_insertEntry k v m.entries m.sorted⟩

/-- The member `try_emplace(key, value)`: inserts unless the key is present. -/
def try_emplace (m : StdMap V) (k : String) (v : V) : StdMap V := m.emplace k v

/-- The member `erase(key)`. -/
def erase (m : StdMap V) (k : String) : StdMap V :=
  ⟨eraseEntry k m.entries, sortedKeys_eraseEntry k m.entries m.sorted⟩

/-- The member `clear`. -/
def clear (_m : StdMap V) : StdMap V := empty

/-- The member `operator[]`: the mapped value and the map afterwards; an absent key is
inserted with a value-initialised mapped value first. -/
def index [Inhabited V] (m : StdMap V) (k : String) : V × StdMap V :=
  match m.find? k with
  | some v => (v, m)
  | none => (default, m.emplace k default)

/-- A range-for over `source` that calls `emplace(id, programData)` on `target` for every
visited entry (lines 131 to 134 and 159 to 162). -/
def emplaceAll (source target : StdMap V) : StdMap V :=
  source.entries.foldl (fun m p => m.emplace p.1 p.2) target

end StdMap

/-! ## The snapshot, the collaborators and the controller object -/

/-- Modelled from the spec: `TrainingProgramListData`, declared in a header outside `src/`.
The fields are the ones `getTrainingProgramList` fills (lines 128 to 134). -/
structure TrainingProgramListData where
  TrainingProgramOrder : List String
  TrainingProgramData : StdMap TrainingProgramData
  WorkshopFolderLocation : String
deriving DecidableEq

/-- Modelled from the spec: the two ways a repository call can fail (the repository is
declared and implemented outside `src/`). -/
inductive RepositoryError where
  | IOError
  | ParseError
deriving DecidableEq, Repr

/-- What leaves a member function instead of a return value: a `std::runtime_error` the
controller throws itself, or a failure raised inside a repository call, which the controller
never catches. -/
inductive Exception where
  | runtime_error (what : String)
  | repository (e : RepositoryError)
deriving DecidableEq, Repr

/-- The repository behind `_repository`, as far as the controller calls it: the one-argument
`storeData` and `restoreData` without a path (`none`) or with one (`some path`). -/
structure ITrainingProgramRepository where
  storeData : TrainingProgramListData → Except RepositoryError Unit
  restoreData : Option String → Except RepositoryError TrainingProgramListData

/-- The identity of a registered `ITrainingProgramListReceiver`. -/
abbrev Receiver := Nat

/-- A call the controller makes on a collaborator. -/
inductive Event where
  | receiveListData (receiver : Receiver) (listData : TrainingProgramListData)
  | storeData (listData : TrainingProgramListData)
  | restoreData (path : Option String)
deriving DecidableEq

/-- The data members of `TrainingProgramListConfigurationControl`. -/
structure TrainingProgramListConfigurationControl where
  _trainingProgramData : StdMap TrainingProgramData
  _trainingProgramOrder : List String
  _workshopFolderLocation : String
  _receivers : List Receiver
deriving DecidableEq

/-- A controller that was just constructed over an empty map. -/
def emptyControl : TrainingProgramListConfigurationControl :=
  ⟨StdMap.empty, [], "", []⟩

deriving instance DecidableEq for Except

/-- What a member function call leaves behind: the value it returned or the exception it
threw, the object when control left the call, and the collaborator calls it made. -/
structure Outcome (α : Type) where
  result : Except Exception α
  control : TrainingProgramListConfigurationControl
  events : List Event

/-! ## The translation unit -/

/-- The template `removeOne` (lines 28 to 37): whether the value was found, and the vector
afterwards. -/
def removeOne {T : Type} [DecidableEq T] (vec : List T) (value : T) : Bool × List T :=
  let it := vec.indexOf value
  if it ≠ vec.length then (true, vec.eraseIdx it) else (false, vec)

/-- The call `std::iter_swap` on two positions of a vector. -/
def iter_swap {T : Type} (vec : List T) (first second : Nat) : List T :=
  match vec[first]?, vec[second]? with
  | some x, some y => (vec.set first y).set second x
  | _, _ => vec

namespace TrainingProgramListConfigurationControl

/-- The text `fmt::format` builds in `ensureIdIsKnown` (line 274). -/
def unknownIdMessage (trainingProgramId parameterName : String) : String :=
  "There is no training program with ID " ++ trainingProgramId ++
    " (parameter " ++ parameterName ++ ")"

/-- The text `fmt::format` builds in `ensureIdDoesntExist` (line 267). -/
def existingIdMessage (trainingProgramId : String) : String :=
  "There is already a training program with ID " ++ trainingProgramId

/-- The member `ensureIdDoesntExist` (lines 263 to 269). No function of the translation unit
calls it. -/
def ensureIdDoesntExist (c : TrainingProgramListConfigurationControl)
    (trainingProgramId : String) : Except Exception Unit :=
  if c._trainingProgramData.count trainingProgramId > 0 then
    .error (.runtime_error (existingIdMessage trainingProgramId))
  else .ok ()

/-- The member `ensureIdIsKnown` (lines 270 to 276). -/
def ensureIdIsKnown (c : TrainingProgramListConfigurationControl)
    (trainingProgramId parameterName : String) : Except Exception Unit :=
  if c._trainingProgramData.count trainingProgramId = 0 then
    .error (.runtime_error (unknownIdMessage trainingProgramId parameterName))
  else .ok ()

/-- The member `registerTrainingProgramListReceiver` (lines 50 to 53). -/
def registerTrainingProgramListReceiver (receiver : Receiver)
    (c : TrainingProgramListConfigurationControl) : TrainingProgramListConfigurationControl :=
  { c with _receivers := c._receivers ++ [receiver] }

/-- The member `getTrainingProgramList` (lines 126 to 136): the order and the location are
copied, the map is rebuilt by one `emplace` per visited entry. -/
def getTrainingProgramList (c : TrainingProgramListConfigurationControl) :
    TrainingProgramListData :=
  { TrainingProgramOrder := c._trainingProgramOrder
    WorkshopFolderLocation := c._workshopFolderLocation
    TrainingProgramData := c._trainingProgramData.emplaceAll StdMap.empty }

/-- The member `notifyReceivers` (lines 249 to 261). A receiver takes the snapshot and
returns nothing. The callers in lines 65, 78, 91, 103 and 120 pass no argument, which stands
for `false` (the call in line 166 is the only one that passes `true`). -/
def notifyReceivers (repo : ITrainingProgramRepository) (currentlyRestoringData : Bool)
    (c : TrainingProgramListConfigurationControl) : Outcome Unit :=
  let listData := getTrainingProgramList c
  let deliveries := c._receivers.map (fun receiver => Event.receiveListData receiver listData)
  if !currentlyRestoringData then
    match repo.storeData listData with
    | .ok _ => ⟨.ok (), c, deliveries ++ [Event.storeData listData]⟩
    | .error e => ⟨.error (.repository e), c, deliveries ++ [Event.storeData listData]⟩
  else ⟨.ok (), c, deliveries⟩

/-- What a mutating call that passed its own checks hands to its caller: it returns when the
store call on the snapshot of the object `after` the mutation returns, and otherwise the
failure of the repository leaves the call. -/
def storeOutcome (repo : ITrainingProgramRepository)
    (after : TrainingProgramListConfigurationControl) : Except Exception Unit :=
  (repo.storeData (getTrainingProgramList after)).mapError Exception.repository

/-- The member `addTrainingProgram` (lines 55 to 68); `generatedUUID` is what
`uuid_generator::generateUUID()` returned. -/
def addTrainingProgram (repo : ITrainingProgramRepository) (generatedUUID : String)
    (c : TrainingProgramListConfigurationControl) : Outcome String :=
  let data : TrainingProgramData :=
    { (default : TrainingProgramData) with
      Id := generatedUUID, Name := "New Training Program", Duration := 0 }
  let c1 := { c with _trainingProgramData := c._trainingProgramData.emplace data.Id data }
  let c2 := { c1 with _trainingProgramOrder := c1._trainingProgramOrder ++ [data.Id] }
  let notified := notifyReceivers repo false c2
  match notified.result with
  | .ok _ => ⟨.ok data.Id, notified.control, notified.events⟩
  | .error e => ⟨.error e, notified.control, notified.events⟩

/-- The member `removeTrainingProgram` (lines 71 to 79). -/
def removeTrainingProgram (repo : ITrainingProgramRepository) (trainingProgramId : String)
    (c : TrainingProgramListConfigurationControl) : Outcome Unit :=
  match ensureIdIsKnown c trainingProgramId "training program ID" with
  | .error e => ⟨.error e, c, []⟩
  | .ok _ =>
    let c1 := { c with
      _trainingProgramOrder := (removeOne c._trainingProgramOrder trainingProgramId).2 }
    let c2 := { c1 with _trainingProgramData := c1._trainingProgramData.erase trainingProgramId }
    notifyReceivers repo false c2

/-- The member `swapTrainingPrograms` (lines 81 to 98); `std::find` is `List.indexOf`, which
is the length of the vector when the value is absent. -/
def swapTrainingPrograms (repo : ITrainingProgramRepository)
    (firstProgramId secondProgramId : String)
    (c : TrainingProgramListConfigurationControl) : Outcome Unit :=
  match ensureIdIsKnown c firstProgramId "first training program ID" with
  | .error e => ⟨.error e, c, []⟩
  | .ok _ =>
    match ensureIdIsKnown c secondProgramId "second training program ID" with
    | .error e => ⟨.error e, c, []⟩
    | .ok _ =>
      let firstIter := c._trainingProgramOrder.indexOf firstProgramId
      let secondIter := c._trainingProgramOrder.indexOf secondProgramId
      if firstIter ≠ c._trainingProgramOrder.length ∧
          secondIter ≠ c._trainingProgramOrder.length then
        notifyReceivers repo false
          { c with _trainingProgramOrder := iter_swap c._trainingProgramOrder firstIter secondIter }
      else
        ⟨.error (.runtime_error "Training Program List is inconsistent"), c, []⟩

/-- The member `changeWorkshopFolderLocation` (lines 100 to 104). -/
def changeWorkshopFolderLocation (repo : ITrainingProgramRepository) (newLocation : String)
    (c : TrainingProgramListConfigurationControl) : Outcome Unit :=
  notifyReceivers repo false { c with _workshopFolderLocation := newLocation }

/-- The member `injectTrainingProgram` (lines 106 to 123). -/
def injectTrainingProgram (repo : ITrainingProgramRepository) (data : TrainingProgramData)
    (c : TrainingProgramListConfigurationControl) : Outcome Unit :=
  let c1 :=
    if c._trainingProgramData.count data.Id > 0 then
      { c with _trainingProgramData := c._trainingProgramData.erase data.Id }
    else
      { c with _trainingProgramOrder := data.Id :: c._trainingProgramOrder }
  let c2 := { c1 with _trainingProgramData := c1._trainingProgramData.try_emplace data.Id data }
  notifyReceivers repo false c2

/-- The member `getTrainingProgramData` (lines 139 to 143); `operator[]` acts on the map the
shared pointer refers to. -/
def getTrainingProgramData (trainingProgramId : String)
    (c : TrainingProgramListConfigurationControl) : Outcome TrainingProgramData :=
  match ensureIdIsKnown c trainingProgramId "training program ID" with
  | .error e => ⟨.error e, c, []⟩
  | .ok _ =>
    let found := c._trainingProgramData.index trainingProgramId
    ⟨.ok found.1, { c with _trainingProgramData := found.2 }, []⟩

/-- The member `restoreData` (lines 145 to 167); an empty path selects the overload of the
repository without a path. -/
def restoreData (repo : ITrainingProgramRepository) (path : String)
    (c : TrainingProgramListConfigurationControl) : Outcome Unit :=
  let c1 := { c with _trainingProgramData := c._trainingProgramData.clear }
  let c2 := { c1 with _trainingProgramOrder := [] }
  let asked := if path = "" then none else some path
  match repo.restoreData asked with
  | .error e => ⟨.error (.repository e), c2, [Event.restoreData asked]⟩
  | .ok data =>
    let c3 := { c2 with _trainingProgramOrder := data.TrainingProgramOrder }
    let c4 := { c3 with
      _trainingProgramData := data.TrainingProgramData.emplaceAll c3._trainingProgramData }
    let c5 := { c4 with _workshopFolderLocation := data.WorkshopFolderLocation }
    let notified := notifyReceivers repo true c5
    ⟨notified.result, notified.control, Event.restoreData asked :: notified.events⟩

/-! ## Sequences of mutating calls -/

/-- One call of a mutating member function, with its arguments; for `addTrainingProgram` the
argument is the string the generator returns during the call. -/
inductive Call where
  | addTrainingProgram (generatedUUID : String)
  | removeTrainingProgram (trainingProgramId : String)
  | swapTrainingPrograms (firstProgramId secondProgramId : String)
  | changeWorkshopFolderLocation (newLocation : String)
  | injectTrainingProgram (data : TrainingProgramData)
deriving DecidableEq

/-- Performs one call; the id `addTrainingProgram` returns is dropped. -/
def perform (repo : ITrainingProgramRepository) (call : Call)
    (c : TrainingProgramListConfigurationControl) : Outcome Unit :=
  match call with
  | .addTrainingProgram generatedUUID =>
    let added := addTrainingProgram repo generatedUUID c
    ⟨added.result.map (fun _ => ()), added.control, added.events⟩
  | .removeTrainingProgram trainingProgramId => removeTrainingProgram repo trainingProgramId c
  | .swapTrainingPrograms firstProgramId secondProgramId =>
    swapTrainingPrograms repo firstProgramId secondProgramId c
  | .changeWorkshopFolderLocation newLocation => changeWorkshopFolderLocation repo newLocation c
  | .injectTrainingProgram data => injectTrainingProgram repo data c

/-- The object after a sequence of calls, each against the repository in place at that
moment; a call that throws leaves the object as it was when the exception left it. -/
def performAll : List (ITrainingProgramRepository × Call) →
    TrainingProgramListConfigurationControl → TrainingProgramListConfigurationControl
  | [], c => c
  | (repo, call) :: rest, c => performAll rest (perform repo call c).control

/-- The id the generator returns during the call, if the call asks for one, is not a key of
the map. -/
def GeneratedIdUnused (call : Call) (c : TrainingProgramListConfigurationControl) : Prop :=
  match call with
  | .addTrainingProgram generatedUUID => generatedUUID ∉ c._trainingProgramData.keys
  | _ => True

instance (call : Call) (c : TrainingProgramListConfigurationControl) :
    Decidable (GeneratedIdUnused call c) := by
  unfold GeneratedIdUnused
  cases call <;> infer_instance

/-- Every id the generator returns during the sequence is not a key of the map at the time
of its call. -/
def GeneratedIdsUnused : List (ITrainingProgramRepository × Call) →
    TrainingProgramListConfigurationControl → Prop
  | [], _ => True
  | (repo, call) :: rest, c =>
    GeneratedIdUnused call c ∧ GeneratedIdsUnused rest (perform repo call c).control

instance decidableGeneratedIdsUnused :
    (calls : List (ITrainingProgramRepository × Call)) →
    (c : TrainingProgramListConfigurationControl) → Decidable (GeneratedIdsUnused calls c)
  | [], _ => isTrue trivial
  | (repo, call) :: rest, c =>
    have := decidableGeneratedIdsUnused rest (perform repo call c).control
    inferInstanceAs (Decidable
      (GeneratedIdUnused call c ∧ GeneratedIdsUnused rest (perform repo call c).control))

/-- The order/mapping invariant: the order holds no id twice, every id in the order is a key
of the map and every key of the map is in the order. -/
def Consistent (c : TrainingProgramListConfigurationControl) : Prop :=
  c._trainingProgramOrder.Nodup ∧
    (∀ id ∈ c._trainingProgramOrder, id ∈ c._trainingProgramData.keys) ∧
    (∀ id ∈ c._trainingProgramData.keys, id ∈ c._trainingProgramOrder)

instance (c : TrainingProgramListConfigurationControl) : Decidable (Consistent c) := by
  unfold Consistent
  infer_instance

/-- A repository whose calls all return normally; `restoreData` hands out `stored`. -/
def workingRepository (stored : TrainingProgramListData) : ITrainingProgramRepository :=
  ⟨fun _ => .ok (), fun _ => .ok stored⟩

/-- A repository whose storage medium is unavailable. -/
def failingRepository : ITrainingProgramRepository :=
  ⟨fun _ => .error .IOError, fun _ => .error .IOError⟩

end TrainingProgramListConfigurationControl

/-! ## JSON documents and the generated conversions -/

/-- The node walk of `operator[]` followed by an assignment: the value of an equal key is
replaced in place, a new key goes in front of the first larger key. -/
def assignEntry {V : Type} (k : String) (v : V) : List (String × V) → List (String × V)
  | [] => [(k, v)]
  | (k', v') :: rest =>
    if keyLess k k' then (k, v) :: (k', v') :: rest
    else if keyLess k' k then (k', v') :: assignEntry k v rest
    else (k', v) :: rest

/-- Modelled from the spec: a JSON document as `nlohmann::json` holds it (the library is in
`external/nlohmann/json.hpp`, outside `src/`). A number is an integer, which is what the
persisted format writes; an object lists its members by key. -/
inductive Json where
  | null
  | boolean (b : Bool)
  | number_integer (n : Int)
  | string (s : String)
  | array (elements : List Json)
  | object (members : List (String × Json))

/-- Modelled from the spec: the kinds of `json::exception` (the library is outside `src/`):
a text that is no JSON document, a value of the wrong shape, a member that is absent. -/
inductive JsonException where
  | parse_error
  | type_error
  | out_of_range
deriving DecidableEq, Repr

namespace Json

/-- Modelled from the spec: the member `at(key)` of the library, which the generated
`from_json` calls for every listed field. -/
def atKey (j : Json) (key : String) : Except JsonException Json :=
  match j with
  | object members =>
    match lookupEntry key members with
    | some value => .ok value
    | none => .error .out_of_range
  | _ => .error .type_error

/-- Modelled from the spec: reading a `std::string` out of a document. -/
def get_string : Json → Except JsonException String
  | string s => .ok s
  | _ => .error .type_error

/-- Modelled from the spec: reading a `bool` out of a document. -/
def get_boolean : Json → Except JsonException Bool
  | boolean b => .ok b
  | _ => .error .type_error

/-- Modelled from the spec: reading a 64-bit integer out of a document. -/
def get_integer : Json → Except JsonException Int
  | number_integer n => .ok n
  | _ => .error .type_error

/-- Modelled from the spec: the elements of an array read one after the other; the first
element that is refused ends the reading. -/
def get_elements {T : Type} (element : Json → Except JsonException T) :
    List Json → Except JsonException (List T)
  | [] => .ok []
  | first :: rest =>
    match element first with
    | .error e => .error e
    | .ok t =>
      match get_elements element rest with
      | .error e => .error e
      | .ok ts => .ok (t :: ts)

/-- Modelled from the spec: reading a `std::vector<T>` out of a document. -/
def get_vector {T : Type} (element : Json → Except JsonException T) :
    Json → Except JsonException (List T)
  | array elements => get_elements element elements
  | _ => .error .type_error

end Json

/-- The serializer `adl_serializer<std::chrono::milliseconds>::to_json` (line 15): the tick
count. -/
def milliseconds_to_json (ms : Int) : Json := .number_integer ms

/-- The serializer `adl_serializer<std::chrono::milliseconds>::from_json` (line 16): the
document converted to the tick count. -/
def milliseconds_from_json (j : Json) : Except JsonException Int := j.get_integer

namespace TrainingProgramEntryType

/-- Modelled from the spec: the integer the library writes for an enumerator, its position
in the enumeration. -/
def to_json : TrainingProgramEntryType → Json
  | plainTimer => .number_integer 0
  | trainingPack => .number_integer 1
  | workshopMap => .number_integer 2

/-- Modelled from the spec: the enumerator the library reads from an integer; an integer
that names no enumerator is outside this model and is refused. -/
def from_json : Json → Except JsonException TrainingProgramEntryType
  | .number_integer 0 => .ok plainTimer
  | .number_integer 1 => .ok trainingPack
  | .number_integer 2 => .ok workshopMap
  | _ => .error .type_error

end TrainingProgramEntryType

namespace TrainingProgramEntry

/-- The function `to_json` that `NLOHMANN_DEFINE_TYPE_NON_INTRUSIVE` generates in line 23:
one assignment `j["field"] = t.field` per listed field, in the listed order, on a document
that starts out empty. -/
def to_json (t : TrainingProgramEntry) : Json :=
  .object
    (assignEntry "WorkshopMapPath" (.string t.WorkshopMapPath)
      (assignEntry "TrainingPackCode" (.string t.TrainingPackCode)
        (assignEntry "Type" t.Type_.to_json
          (assignEntry "Duration" (milliseconds_to_json t.Duration)
            (assignEntry "Name" (.string t.Name) [])))))

/-- The function `from_json` that `NLOHMANN_DEFINE_TYPE_NON_INTRUSIVE` generates in line 23:
one `j.at("field").get_to(t.field)` per listed field, in the listed order. -/
def from_json (j : Json) : Except JsonException TrainingProgramEntry := do
  let name ← (← j.atKey "Name").get_string
  let duration ← milliseconds_from_json (← j.atKey "Duration")
  let type ← TrainingProgramEntryType.from_json (← j.atKey "Type")
  let trainingPackCode ← (← j.atKey "TrainingPackCode").get_string
  let workshopMapPath ← (← j.atKey "WorkshopMapPath").get_string
  return ⟨name, duration, type, trainingPackCode, workshopMapPath⟩

end TrainingProgramEntry

namespace TrainingProgramData

/-- The function `to_json` that `NLOHMANN_DEFINE_TYPE_NON_INTRUSIVE` generates in line 24. -/
def to_json (t : TrainingProgramData) : Json :=
  .object
    (assignEntry "ReadOnly" (.boolean t.ReadOnly)
      (assignEntry "Entries" (.array (t.Entries.map TrainingProgramEntry.to_json))
        (assignEntry "Duration" (milliseconds_to_json t.Duration)
          (assignEntry "Name" (.string t.Name)
            (assignEntry "Id" (.string t.Id) [])))))

/-- The function `from_json` that `NLOHMANN_DEFINE_TYPE_NON_INTRUSIVE` generates in line 24. -/
def from_json (j : Json) : Except JsonException TrainingProgramData := do
  let id ← (← j.atKey "Id").get_string
  let name ← (← j.atKey "Name").get_string
  let duration ← milliseconds_from_json (← j.atKey "Duration")
  let entries ← (← j.atKey "Entries").get_vector TrainingProgramEntry.from_json
  let readOnly ← (← j.atKey "ReadOnly").get_boolean
  return ⟨id, name, duration, entries, readOnly⟩

end TrainingProgramData

namespace TrainingProgramListConfigurationControl

/-- The member `loadTrainingProgram` (lines 184 to 230). `file` is what the file system holds
at the path the dialog returned: `none` when `std::filesystem::exists` says no, the content
otherwise; `parse` is `json::parse`. Both `catch` blocks log and return. -/
def loadTrainingProgram (repo : ITrainingProgramRepository)
    (parse : String → Except JsonException Json) (file : Option String)
    (c : TrainingProgramListConfigurationControl) : Outcome Unit :=
  match file with
  | none => ⟨.ok (), c, []⟩
  | some serialized =>
    match parse serialized with
    | .error _ => ⟨.ok (), c, []⟩
    | .ok jsonData =>
      match TrainingProgramData.from_json jsonData with
      | .error _ => ⟨.ok (), c, []⟩
      | .ok trainingProgramData => injectTrainingProgram repo trainingProgramData c

/-- The member `saveTrainingProgram` (lines 232 to 247), up to the document it hands to
`dump`: the value returned is the document written to the chosen path. -/
def saveTrainingProgram (trainingProgramId : String)
    (c : TrainingProgramListConfigurationControl) : Outcome Json :=
  let fetched := getTrainingProgramData trainingProgramId c
  match fetched.result with
  | .error e => ⟨.error e, fetched.control, fetched.events⟩
  | .ok trainingProgramData =>
    ⟨.ok (TrainingProgramData.to_json trainingProgramData), fetched.control, fetched.events⟩

/-- The C++ class of a thrown object, which is what a `catch` clause selects on: lines 96, 267
and 274 all throw `std::runtime_error`; what a repository throws is its own business. -/
inductive ExceptionClass where
  | std_runtime_error
  | repository_failure
deriving DecidableEq, Repr

/-- The class of the thrown object. -/
def exceptionClass : Exception → ExceptionClass
  | .runtime_error _ => .std_runtime_error
  | .repository _ => .repository_failure

/-- The number of `storeData` calls among the collaborator calls. -/
def storeCalls (events : List Event) : Nat :=
  events.countP (fun e => match e with
    | .storeData _ => true
    | _ => false)

/-- The path handed to the repository by `restoreData`: none for an empty path. -/
def askedPath (path : String) : Option String := if path = "" then none else some path

/-- The call passes the checks of the member function itself: `removeTrainingProgram` needs
a key of the map, `swapTrainingPrograms` two keys of the map that occur in the order. -/
def ValidArguments (call : Call) (c : TrainingProgramListConfigurationControl) : Prop :=
  match call with
  | .removeTrainingProgram trainingProgramId => trainingProgramId ∈ c._trainingProgramData.keys
  | .swapTrainingPrograms firstProgramId secondProgramId =>
    firstProgramId ∈ c._trainingProgramData.keys ∧
    secondProgramId ∈ c._trainingProgramData.keys ∧
    firstProgramId ∈ c._trainingProgramOrder ∧ secondProgramId ∈ c._trainingProgramOrder
  | _ => True

instance (call : Call) (c : TrainingProgramListConfigurationControl) :
    Decidable (ValidArguments call c) := by
  unfold ValidArguments
  cases call <;> infer_instance

end TrainingProgramListConfigurationControl

/-! ## Sample objects -/

namespace TrainingProgramListConfigurationControl

/-- A run with two additions, a swap, an import of a new and of a known program, a
removal, a removal that throws, a call whose store fails and a change of location. -/
def sampleCalls : List (ITrainingProgramRepository × Call) :=
  [ (workingRepository ⟨[], StdMap.empty, ""⟩, .addTrainingProgram "p1"),
    (workingRepository ⟨[], StdMap.empty, ""⟩, .addTrainingProgram "p2"),
    (workingRepository ⟨[], StdMap.empty, ""⟩, .swapTrainingPrograms "p1" "p2"),
    (workingRepository ⟨[], StdMap.empty, ""⟩,
      .injectTrainingProgram ⟨"x", "Imported", 0, [], false⟩),
    (failingRepository, .injectTrainingProgram ⟨"p1", "Renamed", 5, [], true⟩),
    (workingRepository ⟨[], StdMap.empty, ""⟩, .removeTrainingProgram "p2"),
    (workingRepository ⟨[], StdMap.empty, ""⟩, .removeTrainingProgram "unknown"),
    (failingRepository, .addTrainingProgram "p3"),
    (workingRepository ⟨[], StdMap.empty, ""⟩, .changeWorkshopFolderLocation "maps") ]

/-- A repository whose calls return normally and whose storage is empty. -/
def okRepository : ITrainingProgramRepository := workingRepository ⟨[], StdMap.empty, ""⟩

/-- The object after one `addTrainingProgram` call in which the generator returned `"u"`. -/
def controlWithU : TrainingProgramListConfigurationControl :=
  (addTrainingProgram okRepository "u" emptyControl).control

/-- The object after restoring a stored list whose order names `"u"` and whose map is
empty. -/
def controlWithOrphanU : TrainingProgramListConfigurationControl :=
  (restoreData (workingRepository ⟨["u"], StdMap.empty, ""⟩) "" emptyControl).control

/-- A stored list whose order names `"a"` twice. -/
def storedWithDuplicate : TrainingProgramListData :=
  ⟨["a", "a", "b"],
    (StdMap.empty.emplace "a" ⟨"a", "A", 0, [], false⟩).emplace "b" ⟨"b", "B", 0, [], false⟩, ""⟩

/-- The object after restoring `storedWithDuplicate`. -/
def controlWithDuplicate : TrainingProgramListConfigurationControl :=
  (restoreData (workingRepository storedWithDuplicate) "" emptyControl).control

/-- The object after three `addTrainingProgram` calls with generated ids `"p1"`, `"p2"` and
`"p3"` and one registered receiver. -/
def controlWithThree : TrainingProgramListConfigurationControl :=
  performAll
    [(okRepository, .addTrainingProgram "p1"), (okRepository, .addTrainingProgram "p2"),
      (okRepository, .addTrainingProgram "p3")]
    (registerTrainingProgramListReceiver 7 emptyControl)

/-- The empty controller after receiver 7, receiver 9 and receiver 7 again registered. -/
def controlWithReceivers : TrainingProgramListConfigurationControl :=
  registerTrainingProgramListReceiver 7
    (registerTrainingProgramListReceiver 9
      (registerTrainingProgramListReceiver 7 emptyControl))

/-- A stored list with two programs and a workshop folder. -/
def storedList : TrainingProgramListData :=
  ⟨["b", "a"],
    (StdMap.empty.emplace "a" ⟨"a", "A", 1000, [], false⟩).emplace "b" ⟨"b", "B", 0, [], true⟩,
    "maps"⟩

/-- A stored list whose map holds "a" and "b" and whose order names only "a". -/
def storedWithMissingOrder : TrainingProgramListData :=
  ⟨["a"],
    (StdMap.empty.emplace "a" ⟨"a", "A", 0, [], false⟩).emplace "b" ⟨"b", "B", 0, [], false⟩, ""⟩

/-- The object after restoring `storedWithMissingOrder`. -/
def controlWithMissingOrder : TrainingProgramListConfigurationControl :=
  (restoreData (workingRepository storedWithMissingOrder) "" emptyControl).control

/-- A stored list whose map holds, under the key "k", a program whose `Id` is "other". -/
def storedWithForeignId : TrainingProgramListData :=
  ⟨["k"], StdMap.empty.emplace "k" ⟨"other", "X", 0, [], false⟩, ""⟩

/-- The object after restoring `storedWithForeignId`. -/
def controlWithForeignId : TrainingProgramListConfigurationControl :=
  (restoreData (workingRepository storedWithForeignId) "" emptyControl).control

end TrainingProgramListConfigurationControl

/-! ## Facts about the map -/

theorem lookupEntry_isSome_iff {V : Type} (k : String) (l : List (String × V)) :
    (lookupEntry k l).isSome = true ↔ k ∈ l.map Prod.fst := by
  induction l with
  | nil => simp [lookupEntry]
  | cons hd tl ih =>
    obtain ⟨k', v'⟩ := hd
    by_cases h : k' = k
    · simp [lookupEntry, h]
    · have h' : ¬ k = k' := fun e => h e.symm
      simp [lookupEntry, h, h', ih]

theorem lookupEntry_eq_none_iff {V : Type} (k : String) (l : List (String × V)) :
    lookupEntry k l = none ↔ k ∉ l.map Prod.fst := by
  rw [← lookupEntry_isSome_iff]
  cases lookupEntry k l <;> simp

theorem lookupEntry_insertEntry_ne {V : Type} (k k' : String) (v : V) (l : List (String × V))
    (h : k' ≠ k) : lookupEntry k' (insertEntry k v l) = lookupEntry k' l := by
  induction l with
  | nil => simp [insertEntry, lookupEntry, h.symm]
  | cons hd tl ih =>
    obtain ⟨a, b⟩ := hd
    simp only [insertEntry]
    split
    · simp [lookupEntry, h.symm]
    · split
      · simp [lookupEntry, ih]
      · rfl

theorem lookupEntry_insertEntry_self {V : Type} (k : String) (v : V) (l : List (String × V))
    (h : lookupEntry k l = none) : lookupEntry k (insertEntry k v l) = some v := by
  induction l with
  | nil => simp [insertEntry, lookupEntry]
  | cons hd tl ih =>
    obtain ⟨a, b⟩ := hd
    simp only [lookupEntry] at h
    split at h
    · simp at h
    · rename_i hne
      simp only [insertEntry]
      split
      · simp [lookupEntry]
      · split
        · simp [lookupEntry, hne, ih h]
        · rename_i h1 h2
          exact absurd (eq_of_not_keyLess (by simpa using h1) (by simpa using h2)).symm hne

theorem insertEntry_of_mem {V : Type} (k : String) (v : V) (l : List (String × V))
    (hl : SortedKeys l) (h : k ∈ l.map Prod.fst) : insertEntry k v l = l := by
  induction l with
  | nil => simp at h
  | cons hd tl ih =>
    obtain ⟨a, b⟩ := hd
    have hcons := List.pairwise_cons.mp hl
    simp only [insertEntry]
    have h' : k = a ∨ ∃ x, (k, x) ∈ tl := by simpa using h
    rcases h' with hka | hk
    · subst hka
      simp [keyLess_irrefl]
    · obtain ⟨w, hw⟩ := hk
      have hlt : keyLess a k = true := hcons.1 (k, w) hw
      simp [hlt, keyLess_asymm hlt]
      exact ih hcons.2 (by simpa using ⟨w, hw⟩)

theorem lookupEntry_eraseEntry {V : Type} (k k' : String) (l : List (String × V)) :
    lookupEntry k' (eraseEntry k l) = if k' = k then none else lookupEntry k' l := by
  induction l with
  | nil => simp [eraseEntry, lookupEntry]
  | cons hd tl ih =>
    obtain ⟨a, b⟩ := hd
    simp only [eraseEntry] at ih ⊢
    by_cases hak : a = k
    · subst hak
      simp only [List.filter, ne_eq, not_true_eq_false, decide_False, ih, lookupEntry]
      by_cases h2 : k' = a
      · simp [h2]
      · have : ¬ a = k' := fun e => h2 e.symm
        simp [h2, this]
    · simp only [List.filter, ne_eq, hak, not_false_eq_true, decide_True, lookupEntry, ih]
      by_cases h2 : a = k'
      · have : ¬ k' = k := fun e => hak (h2.trans e)
        simp [h2, this]
      · simp [h2]

theorem eraseEntry_insertEntry {V : Type} (k : String) (v : V) (l : List (String × V))
    (h : k ∉ l.map Prod.fst) : eraseEntry k (insertEntry k v l) = l := by
  induction l with
  | nil => simp [insertEntry, eraseEntry]
  | cons hd tl ih =>
    obtain ⟨a, b⟩ := hd
    have hne : a ≠ k := fun e => h (by simp [e])
    have htl : k ∉ tl.map Prod.fst := fun e => h (by simp at e ⊢; exact Or.inr e)
    have hfilter : ∀ l' : List (String × V), k ∉ l'.map Prod.fst → eraseEntry k l' = l' := by
      intro l' hl'
      simp only [eraseEntry, List.filter_eq_self]
      intro p hp
      have : p.1 ≠ k := fun e => hl' (by simpa using ⟨p.2, by rw [← e]; exact hp⟩)
      simpa using this
    simp only [insertEntry]
    split
    · simp only [eraseEntry, List.filter, ne_eq, not_true_eq_false, decide_False]
      exact hfilter _ h
    · split
      · have := ih htl
        simp only [eraseEntry, List.filter, ne_eq, hne, not_false_eq_true, decide_True] at this ⊢
        rw [this]
      · exact hfilter _ h

/-! ## Facts about the vector helpers -/

theorem eraseIdx_indexOf {T : Type} [DecidableEq T] (l : List T) (a : T) :
    l.eraseIdx (l.indexOf a) = l.erase a := by
  induction l with
  | nil => simp
  | cons hd tl ih =>
    by_cases h : hd = a
    · subst h
      simp
    · have h' : ¬ a = hd := fun e => h e.symm
      rw [List.indexOf_cons_ne _ h, List.eraseIdx_cons_succ, ih, List.erase_cons_tail]
      simpa using h

theorem removeOne_snd {T : Type} [DecidableEq T] (vec : List T) (value : T) :
    (removeOne vec value).2 = vec.erase value := by
  unfold removeOne
  by_cases h : value ∈ vec
  · have : vec.indexOf value ≠ vec.length := fun e => (List.indexOf_eq_length.mp e) h
    simp [this, eraseIdx_indexOf]
  · have : vec.indexOf value = vec.length := List.indexOf_eq_length.mpr h
    simp [this, List.erase_of_not_mem h]

theorem removeOne_fst {T : Type} [DecidableEq T] (vec : List T) (value : T) :
    (removeOne vec value).1 = true ↔ value ∈ vec := by
  unfold removeOne
  by_cases h : value ∈ vec
  · have : vec.indexOf value ≠ vec.length := fun e => (List.indexOf_eq_length.mp e) h
    simp [this, h]
  · have : vec.indexOf value = vec.length := List.indexOf_eq_length.mpr h
    simp [this, h]

theorem iter_swap_eq {T : Type} (vec : List T) (i j : Nat) (hi : i < vec.length)
    (hj : j < vec.length) : iter_swap vec i j = (vec.set i vec[j]).set j vec[i] := by
  simp [iter_swap, List.getElem?_eq_getElem hi, List.getElem?_eq_getElem hj]

theorem length_iter_swap {T : Type} (vec : List T) (i j : Nat) :
    (iter_swap vec i j).length = vec.length := by
  unfold iter_swap
  split <;> simp

theorem getElem?_iter_swap {T : Type} (vec : List T) (i j k : Nat) (hi : i < vec.length)
    (hj : j < vec.length) :
    (iter_swap vec i j)[k]? =
      if k = j then some vec[i] else if k = i then some vec[j] else vec[k]? := by
  simp only [iter_swap_eq vec i j hi hj, List.getElem?_set]
  by_cases h1 : j = k
  · subst h1
    simp [hj]
  · have h1' : ¬ k = j := fun e => h1 e.symm
    by_cases h2 : i = k
    · subst h2
      simp [h1, h1', hi]
    · have h2' : ¬ k = i := fun e => h2 e.symm
      simp [h1, h1', h2, h2']

theorem iter_swap_perm {T : Type} [DecidableEq T] (vec : List T) (i j : Nat) :
    (iter_swap vec i j).Perm vec := by
  unfold iter_swap
  split
  · rename_i x y hx hy
    obtain ⟨hi, hxi⟩ := List.getElem?_eq_some_iff.mp hx
    obtain ⟨hj, hyj⟩ := List.getElem?_eq_some_iff.mp hy
    rw [List.perm_iff_count]
    intro a
    have hj' : j < (vec.set i y).length := by simpa using hj
    have hget : (vec.set i y)[j] = y := by
      rw [List.getElem_set]
      split
      · rfl
      · exact hyj
    rw [List.count_set _ _ _ _ hj', List.count_set _ _ _ _ hi, hget, hxi]
    have hcx : x == a → 1 ≤ vec.count a := by
      intro e
      have : x = a := by simpa using e
      rw [← this, ← hxi]
      exact List.one_le_count_iff.mpr (List.getElem_mem _)
    have hcy : y == a → 1 ≤ vec.count a := by
      intro e
      have : y = a := by simpa using e
      rw [← this, ← hyj]
      exact List.one_le_count_iff.mpr (List.getElem_mem _)
    generalize List.count a vec = n at hcx hcy ⊢
    by_cases e1 : x = a <;> by_cases e2 : y = a <;> simp [e1, e2] at hcx hcy ⊢ <;> omega
  · exact List.Perm.refl _

/-! ## Facts about the member functions -/

namespace StdMap

variable {V : Type}

theorem ext_entries {m n : StdMap V} (h : m.entries = n.entries) : m = n := by
  cases m; cases n; simpa using h

theorem mem_keys_iff (m : StdMap V) (k : String) :
    k ∈ m.keys ↔ (m.find? k).isSome = true :=
  (lookupEntry_isSome_iff k m.entries).symm

theorem find?_eq_none_iff (m : StdMap V) (k : String) : m.find? k = none ↔ k ∉ m.keys :=
  lookupEntry_eq_none_iff k m.entries

theorem count_eq_zero_iff (m : StdMap V) (k : String) : m.count k = 0 ↔ k ∉ m.keys := by
  rw [mem_keys_iff]
  unfold count
  split <;> simp_all

theorem count_pos_iff (m : StdMap V) (k : String) : m.count k > 0 ↔ k ∈ m.keys := by
  rw [mem_keys_iff]
  unfold count
  split <;> simp_all

theorem keys_empty : (empty : StdMap V).keys = [] := rfl

theorem find?_emplace_ne (m : StdMap V) (k k' : String) (v : V) (h : k' ≠ k) :
    (m.emplace k v).find? k' = m.find? k' :=
  lookupEntry_insertEntry_ne k k' v m.entries h

theorem find?_emplace_self (m : StdMap V) (k : String) (v : V) (h : k ∉ m.keys) :
    (m.emplace k v).find? k = some v :=
  lookupEntry_insertEntry_self k v m.entries ((m.find?_eq_none_iff k).mpr h)

theorem emplace_of_mem (m : StdMap V) (k : String) (v : V) (h : k ∈ m.keys) :
    m.emplace k v = m :=
  ext_entries (insertEntry_of_mem k v m.entries m.sorted h)

theorem find?_erase (m : StdMap V) (k k' : String) :
    (m.erase k).find? k' = if k' = k then none else m.find? k' :=
  lookupEntry_eraseEntry k k' m.entries

theorem erase_emplace (m : StdMap V) (k : String) (v : V) (h : k ∉ m.keys) :
    (m.emplace k v).erase k = m :=
  ext_entries (eraseEntry_insertEntry k v m.entries h)

theorem mem_keys_emplace (m : StdMap V) (k k' : String) (v : V) :
    k' ∈ (m.emplace k v).keys ↔ k' = k ∨ k' ∈ m.keys := by
  by_cases hk : k ∈ m.keys
  · rw [emplace_of_mem m k v hk]
    constructor
    · exact Or.inr
    · rintro (h | h)
      · exact h ▸ hk
      · exact h
  · by_cases h : k' = k
    · subst h
      simp [mem_keys_iff, find?_emplace_self m k' v hk]
    · simp [mem_keys_iff, find?_emplace_ne m k k' v h, h]

theorem mem_keys_erase (m : StdMap V) (k k' : String) :
    k' ∈ (m.erase k).keys ↔ k' ≠ k ∧ k' ∈ m.keys := by
  simp only [mem_keys_iff, find?_erase]
  by_cases h : k' = k <;> simp [h]

end StdMap

namespace TrainingProgramListConfigurationControl

theorem ensureIdIsKnown_of_mem (c : TrainingProgramListConfigurationControl)
    (id parameterName : String) (h : id ∈ c._trainingProgramData.keys) :
    ensureIdIsKnown c id parameterName = .ok () := by
  have : c._trainingProgramData.count id ≠ 0 :=
    fun e => (c._trainingProgramData.count_eq_zero_iff id).mp e h
  simp [ensureIdIsKnown, this]

theorem ensureIdIsKnown_of_not_mem (c : TrainingProgramListConfigurationControl)
    (id parameterName : String) (h : id ∉ c._trainingProgramData.keys) :
    ensureIdIsKnown c id parameterName =
      .error (.runtime_error (unknownIdMessage id parameterName)) := by
  have : c._trainingProgramData.count id = 0 :=
    (c._trainingProgramData.count_eq_zero_iff id).mpr h
  simp [ensureIdIsKnown, this]

@[simp] theorem notifyReceivers_control (repo : ITrainingProgramRepository) (b : Bool)
    (c : TrainingProgramListConfigurationControl) : (notifyReceivers repo b c).control = c := by
  cases b
  · simp only [notifyReceivers, Bool.not_false, if_true]
    cases repo.storeData (getTrainingProgramList c) <;> rfl
  · rfl

theorem notifyReceivers_events (repo : ITrainingProgramRepository)
    (c : TrainingProgramListConfigurationControl) :
    (notifyReceivers repo false c).events =
      c._receivers.map (fun receiver => Event.receiveListData receiver (getTrainingProgramList c))
        ++ [Event.storeData (getTrainingProgramList c)] := by
  simp only [notifyReceivers, Bool.not_false, if_true]
  cases repo.storeData (getTrainingProgramList c) <;> rfl

theorem notifyReceivers_result (repo : ITrainingProgramRepository)
    (c : TrainingProgramListConfigurationControl) :
    (notifyReceivers repo false c).result = storeOutcome repo c := by
  unfold storeOutcome
  simp only [notifyReceivers, Bool.not_false, if_true]
  cases repo.storeData (getTrainingProgramList c) <;> rfl

theorem addTrainingProgram_control (repo : ITrainingProgramRepository) (g : String)
    (c : TrainingProgramListConfigurationControl) :
    (addTrainingProgram repo g c).control =
      { c with
        _trainingProgramData :=
          c._trainingProgramData.emplace g ⟨g, "New Training Program", 0, [], false⟩
        _trainingProgramOrder := c._trainingProgramOrder ++ [g] } := by
  unfold addTrainingProgram
  simp only []
  split <;> simp <;> rfl

theorem removeTrainingProgram_control_of_mem (repo : ITrainingProgramRepository) (id : String)
    (c : TrainingProgramListConfigurationControl) (h : id ∈ c._trainingProgramData.keys) :
    (removeTrainingProgram repo id c).control =
      { c with
        _trainingProgramOrder := c._trainingProgramOrder.erase id
        _trainingProgramData := c._trainingProgramData.erase id } := by
  simp [removeTrainingProgram, ensureIdIsKnown_of_mem c id _ h, removeOne_snd]

theorem removeTrainingProgram_of_not_mem (repo : ITrainingProgramRepository) (id : String)
    (c : TrainingProgramListConfigurationControl) (h : id ∉ c._trainingProgramData.keys) :
    removeTrainingProgram repo id c =
      ⟨.error (.runtime_error (unknownIdMessage id "training program ID")), c, []⟩ := by
  simp [removeTrainingProgram, ensureIdIsKnown_of_not_mem c id _ h]

theorem injectTrainingProgram_control_of_mem (repo : ITrainingProgramRepository)
    (data : TrainingProgramData) (c : TrainingProgramListConfigurationControl)
    (h : data.Id ∈ c._trainingProgramData.keys) :
    (injectTrainingProgram repo data c).control =
      { c with
        _trainingProgramData := (c._trainingProgramData.erase data.Id).emplace data.Id data } := by
  have : c._trainingProgramData.count data.Id > 0 := (c._trainingProgramData.count_pos_iff _).mpr h
  simp [injectTrainingProgram, this, StdMap.try_emplace]

theorem injectTrainingProgram_control_of_not_mem (repo : ITrainingProgramRepository)
    (data : TrainingProgramData) (c : TrainingProgramListConfigurationControl)
    (h : data.Id ∉ c._trainingProgramData.keys) :
    (injectTrainingProgram repo data c).control =
      { c with
        _trainingProgramOrder := data.Id :: c._trainingProgramOrder
        _trainingProgramData := c._trainingProgramData.emplace data.Id data } := by
  have : ¬ c._trainingProgramData.count data.Id > 0 :=
    fun e => h ((c._trainingProgramData.count_pos_iff _).mp e)
  simp [injectTrainingProgram, this, StdMap.try_emplace]

theorem swapTrainingPrograms_control (repo : ITrainingProgramRepository) (a b : String)
    (c : TrainingProgramListConfigurationControl) :
    (swapTrainingPrograms repo a b c).control = c ∨
    (swapTrainingPrograms repo a b c).control =
      { c with
        _trainingProgramOrder :=
          iter_swap c._trainingProgramOrder (c._trainingProgramOrder.indexOf a)
            (c._trainingProgramOrder.indexOf b) } := by
  unfold swapTrainingPrograms
  split
  · exact Or.inl rfl
  · split
    · exact Or.inl rfl
    · simp only []
      split
      · exact Or.inr (by simp)
      · exact Or.inl rfl

end TrainingProgramListConfigurationControl

namespace TrainingProgramListConfigurationControl

theorem consistent_iff (c : TrainingProgramListConfigurationControl) :
    Consistent c ↔ c._trainingProgramOrder.Nodup ∧
      ∀ id, id ∈ c._trainingProgramOrder ↔ id ∈ c._trainingProgramData.keys :=
  ⟨fun h => ⟨h.1, fun id => ⟨h.2.1 id, h.2.2 id⟩⟩,
    fun h => ⟨h.1, fun id => (h.2 id).mp, fun id => (h.2 id).mpr⟩⟩

theorem consistent_perform (repo : ITrainingProgramRepository) (call : Call)
    (c : TrainingProgramListConfigurationControl) (hc : Consistent c)
    (hfresh : GeneratedIdUnused call c) :
    Consistent (perform repo call c).control := by
  obtain ⟨hnodup, hmem⟩ := (consistent_iff c).mp hc
  rw [consistent_iff]
  cases call with
  | addTrainingProgram g =>
    have hg : g ∉ c._trainingProgramData.keys := hfresh
    have hgo : g ∉ c._trainingProgramOrder := fun e => hg ((hmem g).mp e)
    simp only [perform, addTrainingProgram_control]
    refine ⟨?_, ?_⟩
    · exact List.Nodup.append hnodup (List.nodup_singleton g) (by simpa using hgo)
    · intro id
      simp only [List.mem_append, List.mem_singleton, StdMap.mem_keys_emplace, hmem id]
      exact Or.comm
  | removeTrainingProgram id =>
    by_cases hid : id ∈ c._trainingProgramData.keys
    · simp only [perform, removeTrainingProgram_control_of_mem repo id c hid]
      refine ⟨hnodup.erase id, ?_⟩
      intro k
      simp only [hnodup.mem_erase_iff, StdMap.mem_keys_erase, hmem k]
    · simp only [perform, removeTrainingProgram_of_not_mem repo id c hid]
      exact ⟨hnodup, hmem⟩
  | swapTrainingPrograms a b =>
    simp only [perform]
    rcases swapTrainingPrograms_control repo a b c with h | h
    · rw [h]
      exact ⟨hnodup, hmem⟩
    · rw [h]
      have hperm := iter_swap_perm c._trainingProgramOrder (c._trainingProgramOrder.indexOf a)
        (c._trainingProgramOrder.indexOf b)
      exact ⟨hperm.nodup_iff.mpr hnodup, fun k => (hperm.mem_iff).trans (hmem k)⟩
  | changeWorkshopFolderLocation newLocation =>
    simp only [perform, changeWorkshopFolderLocation, notifyReceivers_control]
    exact ⟨hnodup, hmem⟩
  | injectTrainingProgram data =>
    by_cases hid : data.Id ∈ c._trainingProgramData.keys
    · simp only [perform, injectTrainingProgram_control_of_mem repo data c hid]
      refine ⟨hnodup, ?_⟩
      intro k
      simp only [StdMap.mem_keys_emplace, StdMap.mem_keys_erase, hmem k]
      constructor
      · intro h
        by_cases hk : k = data.Id
        · exact Or.inl hk
        · exact Or.inr ⟨hk, h⟩
      · rintro (h | h)
        · exact h ▸ hid
        · exact h.2
    · have hido : data.Id ∉ c._trainingProgramOrder := fun e => hid ((hmem _).mp e)
      simp only [perform, injectTrainingProgram_control_of_not_mem repo data c hid]
      refine ⟨List.nodup_cons.mpr ⟨hido, hnodup⟩, ?_⟩
      intro k
      simp only [List.mem_cons, StdMap.mem_keys_emplace, hmem k]

theorem consistent_performAll (calls : List (ITrainingProgramRepository × Call))
    (c : TrainingProgramListConfigurationControl) (hc : Consistent c)
    (hfresh : GeneratedIdsUnused calls c) : Consistent (performAll calls c) := by
  induction calls generalizing c with
  | nil => exact hc
  | cons hd tl ih =>
    obtain ⟨repo, call⟩ := hd
    obtain ⟨hnow, hlater⟩ := hfresh
    exact ih _ (consistent_perform repo call c hc hnow) hlater

theorem consistent_emptyControl : Consistent emptyControl := by
  decide

end TrainingProgramListConfigurationControl

theorem indexOf_of_getElem? {T : Type} [DecidableEq T] (l : List T) (i : Nat) (x : T)
    (hl : l.Nodup) (hx : l[i]? = some x) : l.indexOf x = i := by
  obtain ⟨hi, hxi⟩ := List.getElem?_eq_some_iff.mp hx
  rw [← hxi]
  exact List.indexOf_getElem hl i hi

theorem getElem?_indexOf {T : Type} [DecidableEq T] (l : List T) (x : T) (hx : x ∈ l) :
    l[l.indexOf x]? = some x := by
  have h : l.indexOf x < l.length := List.indexOf_lt_length.mpr hx
  rw [List.getElem?_eq_getElem h, List.getElem_indexOf h]

theorem iter_swap_iter_swap {T : Type} (l : List T) (i j : Nat) (hi : i < l.length)
    (hj : j < l.length) : iter_swap (iter_swap l i j) j i = l := by
  have hi' : i < (iter_swap l i j).length := by rw [length_iter_swap]; exact hi
  have hj' : j < (iter_swap l i j).length := by rw [length_iter_swap]; exact hj
  apply List.ext_getElem?
  intro k
  have e1 : (iter_swap l i j)[j]? = some l[i] := by
    rw [getElem?_iter_swap l i j j hi hj]; simp
  have e2 : (iter_swap l i j)[i]? = some l[j] := by
    rw [getElem?_iter_swap l i j i hi hj]
    by_cases h : i = j
    · subst h; simp
    · simp [h]
  have e1' : (iter_swap l i j)[j] = l[i] := by
    have := List.getElem?_eq_getElem hj'
    rw [e1] at this
    exact (Option.some.inj this).symm
  have e2' : (iter_swap l i j)[i] = l[j] := by
    have := List.getElem?_eq_getElem hi'
    rw [e2] at this
    exact (Option.some.inj this).symm
  rw [getElem?_iter_swap (iter_swap l i j) j i k hj' hi', e1', e2',
    getElem?_iter_swap l i j k hi hj]
  by_cases h1 : k = i
  · subst h1
    simp [List.getElem?_eq_getElem hi]
  · by_cases h2 : k = j
    · subst h2
      simp [h1, List.getElem?_eq_getElem hj]
    · simp [h1, h2]

namespace TrainingProgramListConfigurationControl

theorem addTrainingProgram_result (repo : ITrainingProgramRepository) (g : String)
    (c : TrainingProgramListConfigurationControl) :
    (addTrainingProgram repo g c).result =
      (storeOutcome repo (addTrainingProgram repo g c).control).map (fun _ => g) := by
  unfold storeOutcome
  rw [addTrainingProgram_control]
  simp only [addTrainingProgram, notifyReceivers, Bool.not_false, if_true]
  cases h : repo.storeData _ <;> simp [h, Except.map, Except.mapError]

theorem swapTrainingPrograms_of_mem (repo : ITrainingProgramRepository) (a b : String)
    (c : TrainingProgramListConfigurationControl)
    (ha : a ∈ c._trainingProgramData.keys) (hb : b ∈ c._trainingProgramData.keys)
    (hao : a ∈ c._trainingProgramOrder) (hbo : b ∈ c._trainingProgramOrder) :
    swapTrainingPrograms repo a b c =
      notifyReceivers repo false
        { c with
          _trainingProgramOrder :=
            iter_swap c._trainingProgramOrder (c._trainingProgramOrder.indexOf a)
              (c._trainingProgramOrder.indexOf b) } := by
  have h1 : c._trainingProgramOrder.indexOf a ≠ c._trainingProgramOrder.length :=
    fun e => (List.indexOf_eq_length.mp e) hao
  have h2 : c._trainingProgramOrder.indexOf b ≠ c._trainingProgramOrder.length :=
    fun e => (List.indexOf_eq_length.mp e) hbo
  simp [swapTrainingPrograms, ensureIdIsKnown_of_mem c a _ ha, ensureIdIsKnown_of_mem c b _ hb,
    h1, h2]

theorem storeOutcome_of_ok (repo : ITrainingProgramRepository)
    (after : TrainingProgramListConfigurationControl)
    (h : repo.storeData (getTrainingProgramList after) = .ok ()) :
    storeOutcome repo after = .ok () := by
  rw [storeOutcome, h]
  rfl

theorem storeOutcome_ne_runtime_error (repo : ITrainingProgramRepository)
    (after : TrainingProgramListConfigurationControl) (what : String) :
    storeOutcome repo after ≠ .error (.runtime_error what) := by
  unfold storeOutcome
  cases repo.storeData (getTrainingProgramList after) <;> simp [Except.mapError]

theorem addTrainingProgram_result_ok (repo : ITrainingProgramRepository) (g id : String)
    (c : TrainingProgramListConfigurationControl)
    (h : (addTrainingProgram repo g c).result = .ok id) : id = g := by
  rw [addTrainingProgram_result] at h
  cases hs : storeOutcome repo (addTrainingProgram repo g c).control <;>
    simp [hs, Except.map] at h
  exact h.symm

theorem addTrainingProgram_result_of_ok (repo : ITrainingProgramRepository) (g : String)
    (c : TrainingProgramListConfigurationControl)
    (h : repo.storeData (getTrainingProgramList (addTrainingProgram repo g c).control) = .ok ()) :
    (addTrainingProgram repo g c).result = .ok g := by
  rw [addTrainingProgram_result, storeOutcome_of_ok repo _ h]
  rfl

end TrainingProgramListConfigurationControl

namespace TrainingProgramListConfigurationControl

theorem injectTrainingProgram_result (repo : ITrainingProgramRepository)
    (data : TrainingProgramData) (c : TrainingProgramListConfigurationControl) :
    (injectTrainingProgram repo data c).result =
      storeOutcome repo (injectTrainingProgram repo data c).control := by
  simp only [injectTrainingProgram, notifyReceivers_result, notifyReceivers_control]

theorem removeTrainingProgram_result_of_mem (repo : ITrainingProgramRepository) (id : String)
    (c : TrainingProgramListConfigurationControl) (h : id ∈ c._trainingProgramData.keys) :
    (removeTrainingProgram repo id c).result =
      storeOutcome repo (removeTrainingProgram repo id c).control := by
  simp only [removeTrainingProgram, ensureIdIsKnown_of_mem c id _ h, notifyReceivers_result,
    notifyReceivers_control]

theorem getTrainingProgramData_of_find? (id : String)
    (c : TrainingProgramListConfigurationControl) (v : TrainingProgramData)
    (h : c._trainingProgramData.find? id = some v) :
    getTrainingProgramData id c = ⟨.ok v, c, []⟩ := by
  have hmem : id ∈ c._trainingProgramData.keys := by
    rw [StdMap.mem_keys_iff, h]
    rfl
  simp [getTrainingProgramData, ensureIdIsKnown_of_mem c id _ hmem, StdMap.index, h]

theorem getTrainingProgramData_of_not_mem (id : String)
    (c : TrainingProgramListConfigurationControl) (h : id ∉ c._trainingProgramData.keys) :
    getTrainingProgramData id c =
      ⟨.error (.runtime_error (unknownIdMessage id "training program ID")), c, []⟩ := by
  simp [getTrainingProgramData, ensureIdIsKnown_of_not_mem c id _ h]

theorem injectTrainingProgram_find? (repo : ITrainingProgramRepository)
    (data : TrainingProgramData) (c : TrainingProgramListConfigurationControl) (k : String) :
    (injectTrainingProgram repo data c).control._trainingProgramData.find? k =
      if k = data.Id then some data else c._trainingProgramData.find? k := by
  by_cases hid : data.Id ∈ c._trainingProgramData.keys
  · rw [injectTrainingProgram_control_of_mem repo data c hid]
    have hgone : data.Id ∉ (c._trainingProgramData.erase data.Id).keys := by
      rw [StdMap.mem_keys_erase]
      exact fun h => h.1 rfl
    by_cases hk : k = data.Id
    · subst hk
      simp [StdMap.find?_emplace_self _ _ _ hgone]
    · simp [hk, StdMap.find?_emplace_ne _ _ _ _ hk, StdMap.find?_erase]
  · rw [injectTrainingProgram_control_of_not_mem repo data c hid]
    by_cases hk : k = data.Id
    · subst hk
      simp [StdMap.find?_emplace_self _ _ _ hid]
    · simp [hk, StdMap.find?_emplace_ne _ _ _ _ hk]

theorem swapTrainingPrograms_of_first_not_mem (repo : ITrainingProgramRepository)
    (a b : String) (c : TrainingProgramListConfigurationControl)
    (h : a ∉ c._trainingProgramData.keys) :
    swapTrainingPrograms repo a b c =
      ⟨.error (.runtime_error (unknownIdMessage a "first training program ID")), c, []⟩ := by
  simp [swapTrainingPrograms, ensureIdIsKnown_of_not_mem c a _ h]

theorem swapTrainingPrograms_of_second_not_mem (repo : ITrainingProgramRepository)
    (a b : String) (c : TrainingProgramListConfigurationControl)
    (ha : a ∈ c._trainingProgramData.keys) (h : b ∉ c._trainingProgramData.keys) :
    swapTrainingPrograms repo a b c =
      ⟨.error (.runtime_error (unknownIdMessage b "second training program ID")), c, []⟩ := by
  simp [swapTrainingPrograms, ensureIdIsKnown_of_mem c a _ ha,
    ensureIdIsKnown_of_not_mem c b _ h]

end TrainingProgramListConfigurationControl
namespace TrainingProgramListConfigurationControl

theorem addTrainingProgram_events (repo : ITrainingProgramRepository) (g : String)
    (c : TrainingProgramListConfigurationControl) :
    (addTrainingProgram repo g c).events =
      (notifyReceivers repo false (addTrainingProgram repo g c).control).events := by
  rw [addTrainingProgram_control]
  simp only [addTrainingProgram, notifyReceivers, Bool.not_false, if_true]
  cases h : repo.storeData _ <;> simp [h] <;> rfl

theorem swapTrainingPrograms_of_not_in_order (repo : ITrainingProgramRepository)
    (a b : String) (c : TrainingProgramListConfigurationControl)
    (ha : a ∈ c._trainingProgramData.keys) (hb : b ∈ c._trainingProgramData.keys)
    (h : ¬ (a ∈ c._trainingProgramOrder ∧ b ∈ c._trainingProgramOrder)) :
    swapTrainingPrograms repo a b c =
      ⟨.error (.runtime_error "Training Program List is inconsistent"), c, []⟩ := by
  have h' : ¬ (c._trainingProgramOrder.indexOf a ≠ c._trainingProgramOrder.length ∧
      c._trainingProgramOrder.indexOf b ≠ c._trainingProgramOrder.length) := by
    rintro ⟨h1, h2⟩
    exact h ⟨by_contra fun e => h1 (List.indexOf_eq_length.mpr e),
      by_contra fun e => h2 (List.indexOf_eq_length.mpr e)⟩
  simp only [swapTrainingPrograms, ensureIdIsKnown_of_mem c a _ ha,
    ensureIdIsKnown_of_mem c b _ hb, h', if_false]

theorem swapTrainingPrograms_cases (repo : ITrainingProgramRepository) (a b : String)
    (c : TrainingProgramListConfigurationControl) :
    (∃ what, swapTrainingPrograms repo a b c = ⟨.error (.runtime_error what), c, []⟩) ∨
    swapTrainingPrograms repo a b c =
      notifyReceivers repo false
        { c with
          _trainingProgramOrder :=
            iter_swap c._trainingProgramOrder (c._trainingProgramOrder.indexOf a)
              (c._trainingProgramOrder.indexOf b) } := by
  by_cases ha : a ∈ c._trainingProgramData.keys
  · by_cases hb : b ∈ c._trainingProgramData.keys
    · by_cases ho : a ∈ c._trainingProgramOrder ∧ b ∈ c._trainingProgramOrder
      · exact Or.inr (swapTrainingPrograms_of_mem repo a b c ha hb ho.1 ho.2)
      · exact Or.inl ⟨_, swapTrainingPrograms_of_not_in_order repo a b c ha hb ho⟩
    · exact Or.inl ⟨_, swapTrainingPrograms_of_second_not_mem repo a b c ha hb⟩
  · exact Or.inl ⟨_, swapTrainingPrograms_of_first_not_mem repo a b c ha⟩

theorem notifyReceivers_protocol (repo : ITrainingProgramRepository)
    (c : TrainingProgramListConfigurationControl) :
    (notifyReceivers repo false c).events =
      (notifyReceivers repo false c).control._receivers.map (fun receiver =>
        Event.receiveListData receiver
          (getTrainingProgramList (notifyReceivers repo false c).control))
      ++ [Event.storeData (getTrainingProgramList (notifyReceivers repo false c).control)] := by
  rw [notifyReceivers_events, notifyReceivers_control]

theorem perform_receivers (repo : ITrainingProgramRepository) (call : Call)
    (c : TrainingProgramListConfigurationControl) :
    (perform repo call c).control._receivers = c._receivers := by
  cases call with
  | addTrainingProgram g => simp only [perform, addTrainingProgram_control]
  | removeTrainingProgram id =>
    by_cases hid : id ∈ c._trainingProgramData.keys
    · simp only [perform, removeTrainingProgram_control_of_mem repo id c hid]
    · simp only [perform, removeTrainingProgram_of_not_mem repo id c hid]
  | swapTrainingPrograms a b =>
    rcases swapTrainingPrograms_control repo a b c with h | h <;> simp only [perform, h]
  | changeWorkshopFolderLocation newLocation =>
    simp only [perform, changeWorkshopFolderLocation, notifyReceivers_control]
  | injectTrainingProgram data =>
    by_cases hid : data.Id ∈ c._trainingProgramData.keys
    · simp only [perform, injectTrainingProgram_control_of_mem repo data c hid]
    · simp only [perform, injectTrainingProgram_control_of_not_mem repo data c hid]

end TrainingProgramListConfigurationControl

theorem insertEntry_of_all_less {V : Type} (k : String) (v : V) (l : List (String × V))
    (h : ∀ p ∈ l, keyLess p.1 k = true) : insertEntry k v l = l ++ [(k, v)] := by
  induction l with
  | nil => rfl
  | cons hd tl ih =>
    obtain ⟨a, b⟩ := hd
    have hlt : keyLess a k = true := h (a, b) (List.mem_cons_self _ _)
    simp only [insertEntry, keyLess_asymm hlt, hlt, if_true, List.cons_append]
    rw [ih (fun p hp => h p (List.mem_cons_of_mem _ hp))]
    simp

theorem foldl_insertEntry {V : Type} (rest acc : List (String × V))
    (h : SortedKeys (acc ++ rest)) :
    rest.foldl (fun l p => insertEntry p.1 p.2 l) acc = acc ++ rest := by
  induction rest generalizing acc with
  | nil => simp
  | cons p tl ih =>
    have hless : ∀ q ∈ acc, keyLess q.1 p.1 = true := by
      intro q hq
      exact (List.pairwise_append.mp h).2.2 q hq p (List.mem_cons_self _ _)
    simp only [List.foldl_cons]
    rw [insertEntry_of_all_less p.1 p.2 acc hless, ih (acc ++ [p]) (by simpa using h)]
    simp

namespace StdMap

variable {V : Type}

theorem entries_foldl_emplace (l : List (String × V)) (target : StdMap V) :
    (l.foldl (fun m p => m.emplace p.1 p.2) target).entries =
      l.foldl (fun l p => insertEntry p.1 p.2 l) target.entries := by
  induction l generalizing target with
  | nil => rfl
  | cons p tl ih =>
    simp only [List.foldl_cons]
    rw [ih]
    rfl

theorem emplaceAll_empty (m : StdMap V) : m.emplaceAll empty = m := by
  apply ext_entries
  unfold emplaceAll
  rw [entries_foldl_emplace]
  have := foldl_insertEntry m.entries [] (by simpa using m.sorted)
  simpa [empty] using this

end StdMap

namespace TrainingProgramListConfigurationControl

theorem getTrainingProgramList_eq (c : TrainingProgramListConfigurationControl) :
    getTrainingProgramList c =
      ⟨c._trainingProgramOrder, c._trainingProgramData, c._workshopFolderLocation⟩ := by
  simp [getTrainingProgramList, StdMap.emplaceAll_empty]

end TrainingProgramListConfigurationControl
theorem lookupEntry_assignEntry {V : Type} (k k' : String) (v : V) (l : List (String × V)) :
    lookupEntry k' (assignEntry k v l) = if k' = k then some v else lookupEntry k' l := by
  induction l with
  | nil =>
    by_cases h : k' = k
    · simp [assignEntry, lookupEntry, h]
    · have h' : ¬ k = k' := fun e => h e.symm
      simp [assignEntry, lookupEntry, h, h']
  | cons hd tl ih =>
    obtain ⟨a, b⟩ := hd
    simp only [assignEntry]
    split
    · by_cases h : k' = k
      · simp [lookupEntry, h]
      · have h' : ¬ k = k' := fun e => h e.symm
        simp [lookupEntry, h, h']
    · rename_i h1
      split
      · rename_i h2
        have hak : a ≠ k := by
          intro e
          rw [e, keyLess_irrefl] at h2
          exact Bool.noConfusion h2
        by_cases h : k' = k
        · subst h
          simp [lookupEntry, hak, ih]
        · simp [lookupEntry, ih, h]
      · rename_i h2
        have hak : a = k := (eq_of_not_keyLess (by simpa using h1) (by simpa using h2)).symm
        subst hak
        by_cases h : k' = a
        · simp [lookupEntry, h]
        · have h' : ¬ a = k' := fun e => h e.symm
          simp [lookupEntry, h, h']

theorem eraseEntry_of_not_mem {V : Type} (k : String) (l : List (String × V))
    (h : k ∉ l.map Prod.fst) : eraseEntry k l = l := by
  simp only [eraseEntry, List.filter_eq_self]
  intro p hp
  have : p.1 ≠ k := fun e => h (by simpa using ⟨p.2, by rw [← e]; exact hp⟩)
  simpa using this

theorem insertEntry_eraseEntry_self {V : Type} (k : String) (v : V) (l : List (String × V))
    (hl : SortedKeys l) (h : lookupEntry k l = some v) :
    insertEntry k v (eraseEntry k l) = l := by
  induction l with
  | nil => simp [lookupEntry] at h
  | cons hd tl ih =>
    obtain ⟨a, b⟩ := hd
    have hcons := List.pairwise_cons.mp hl
    by_cases hak : a = k
    · subst hak
      have hb : b = v := by simpa [lookupEntry] using h
      subst hb
      have hnot : a ∉ tl.map Prod.fst := by
        intro hmem
        obtain ⟨p, hp, hpa⟩ := List.mem_map.mp hmem
        have := hcons.1 p hp
        rw [hpa, keyLess_irrefl] at this
        exact Bool.noConfusion this
      have herase : eraseEntry a ((a, b) :: tl) = tl := by
        have : eraseEntry a ((a, b) :: tl) = eraseEntry a tl := by
          simp [eraseEntry, List.filter]
        rw [this, eraseEntry_of_not_mem a tl hnot]
      rw [herase]
      cases tl with
      | nil => rfl
      | cons q rest =>
        obtain ⟨qa, qb⟩ := q
        have hlt : keyLess a qa = true := hcons.1 (qa, qb) (List.mem_cons_self _ _)
        simp [insertEntry, hlt]
    · have htl : lookupEntry k tl = some v := by simpa [lookupEntry, hak] using h
      have hmem : k ∈ tl.map Prod.fst := by
        rw [← lookupEntry_isSome_iff, htl]
        rfl
      obtain ⟨p, hp, hpk⟩ := List.mem_map.mp hmem
      have hlt : keyLess a k = true := by
        have := hcons.1 p hp
        rwa [hpk] at this
      have herase : eraseEntry k ((a, b) :: tl) = (a, b) :: eraseEntry k tl := by
        simp [eraseEntry, List.filter, hak]
      rw [herase]
      simp only [insertEntry, keyLess_asymm hlt, hlt, if_true]
      rw [ih hcons.2 htl]
      simp

namespace StdMap

variable {V : Type}

theorem emplace_erase_self (m : StdMap V) (k : String) (v : V) (h : m.find? k = some v) :
    (m.erase k).emplace k v = m :=
  ext_entries (insertEntry_eraseEntry_self k v m.entries m.sorted h)

theorem emplaceAll_clear (source target : StdMap V) : source.emplaceAll target.clear = source :=
  emplaceAll_empty source

end StdMap

namespace TrainingProgramListConfigurationControl

theorem restoreData_of_ok (repo : ITrainingProgramRepository) (path : String)
    (c : TrainingProgramListConfigurationControl) (d : TrainingProgramListData)
    (h : repo.restoreData (askedPath path) = .ok d) :
    restoreData repo path c =
      ⟨.ok (), ⟨d.TrainingProgramData, d.TrainingProgramOrder, d.WorkshopFolderLocation,
        c._receivers⟩,
        Event.restoreData (askedPath path) ::
          c._receivers.map (fun receiver => Event.receiveListData receiver d)⟩ := by
  unfold askedPath at h
  simp only [restoreData, h, notifyReceivers, StdMap.emplaceAll_clear, getTrainingProgramList_eq,
    askedPath]
  rfl

theorem restoreData_of_error (repo : ITrainingProgramRepository) (path : String)
    (c : TrainingProgramListConfigurationControl) (e : RepositoryError)
    (h : repo.restoreData (askedPath path) = .error e) :
    restoreData repo path c =
      ⟨.error (.repository e), ⟨StdMap.empty, [], c._workshopFolderLocation, c._receivers⟩,
        [Event.restoreData (askedPath path)]⟩ := by
  unfold askedPath at h
  simp only [restoreData, h, askedPath]
  rfl

end TrainingProgramListConfigurationControl
namespace TrainingProgramListConfigurationControl

theorem storeCalls_deliveries (receivers : List Receiver) (d : TrainingProgramListData) :
    storeCalls (receivers.map (fun receiver => Event.receiveListData receiver d)) = 0 := by
  induction receivers with
  | nil => rfl
  | cons r rest ih =>
    simp only [storeCalls, List.map_cons, List.countP_cons] at ih ⊢
    rw [ih]
    rfl

theorem storeData_not_mem_deliveries (receivers : List Receiver)
    (d listData : TrainingProgramListData) :
    Event.storeData listData ∉
      receivers.map (fun receiver => Event.receiveListData receiver d) := by
  intro h
  obtain ⟨r, _, hr⟩ := List.mem_map.mp h
  cases hr

theorem perform_control_independent (repo repo' : ITrainingProgramRepository) (call : Call)
    (c : TrainingProgramListConfigurationControl) :
    (perform repo call c).control = (perform repo' call c).control := by
  cases call with
  | addTrainingProgram g => simp only [perform, addTrainingProgram_control]
  | removeTrainingProgram id =>
    by_cases hid : id ∈ c._trainingProgramData.keys
    · simp only [perform, removeTrainingProgram_control_of_mem _ id c hid]
    · simp only [perform, removeTrainingProgram_of_not_mem _ id c hid]
  | swapTrainingPrograms a b =>
    by_cases ha : a ∈ c._trainingProgramData.keys
    · by_cases hb : b ∈ c._trainingProgramData.keys
      · by_cases ho : a ∈ c._trainingProgramOrder ∧ b ∈ c._trainingProgramOrder
        · simp only [perform, swapTrainingPrograms_of_mem _ a b c ha hb ho.1 ho.2,
            notifyReceivers_control]
        · simp only [perform, swapTrainingPrograms_of_not_in_order _ a b c ha hb ho]
      · simp only [perform, swapTrainingPrograms_of_second_not_mem _ a b c ha hb]
    · simp only [perform, swapTrainingPrograms_of_first_not_mem _ a b c ha]
  | changeWorkshopFolderLocation newLocation =>
    simp only [perform, changeWorkshopFolderLocation, notifyReceivers_control]
  | injectTrainingProgram data =>
    by_cases hid : data.Id ∈ c._trainingProgramData.keys
    · simp only [perform, injectTrainingProgram_control_of_mem _ data c hid]
    · simp only [perform, injectTrainingProgram_control_of_not_mem _ data c hid]

theorem perform_result_of_valid (repo : ITrainingProgramRepository) (call : Call)
    (c : TrainingProgramListConfigurationControl) (hvalid : ValidArguments call c) :
    (perform repo call c).result = storeOutcome repo (perform repo call c).control := by
  cases call with
  | addTrainingProgram g =>
    simp only [perform, addTrainingProgram_result]
    cases storeOutcome repo (addTrainingProgram repo g c).control <;> rfl
  | removeTrainingProgram id =>
    exact removeTrainingProgram_result_of_mem repo id c hvalid
  | swapTrainingPrograms a b =>
    obtain ⟨ha, hb, hao, hbo⟩ := hvalid
    simp only [perform, swapTrainingPrograms_of_mem repo a b c ha hb hao hbo,
      notifyReceivers_result, notifyReceivers_control]
  | changeWorkshopFolderLocation newLocation =>
    simp only [perform, changeWorkshopFolderLocation, notifyReceivers_result,
      notifyReceivers_control]
  | injectTrainingProgram data =>
    exact injectTrainingProgram_result repo data c

theorem perform_events_of_valid (repo : ITrainingProgramRepository) (call : Call)
    (c : TrainingProgramListConfigurationControl) (hvalid : ValidArguments call c) :
    (perform repo call c).events =
      c._receivers.map (fun receiver =>
        Event.receiveListData receiver (getTrainingProgramList (perform repo call c).control))
      ++ [Event.storeData (getTrainingProgramList (perform repo call c).control)] := by
  rw [← perform_receivers repo call c]
  cases call with
  | addTrainingProgram g =>
    simp only [perform, addTrainingProgram_events]
    exact notifyReceivers_events repo _
  | removeTrainingProgram id =>
    have hid : id ∈ c._trainingProgramData.keys := hvalid
    simp only [perform, removeTrainingProgram, ensureIdIsKnown_of_mem c id _ hid]
    exact notifyReceivers_protocol repo _
  | swapTrainingPrograms a b =>
    obtain ⟨ha, hb, hao, hbo⟩ := hvalid
    simp only [perform, swapTrainingPrograms_of_mem repo a b c ha hb hao hbo]
    exact notifyReceivers_protocol repo _
  | changeWorkshopFolderLocation newLocation =>
    exact notifyReceivers_protocol repo _
  | injectTrainingProgram data =>
    exact notifyReceivers_protocol repo _

theorem storeOutcome_of_error (repo : ITrainingProgramRepository)
    (after : TrainingProgramListConfigurationControl) (e : RepositoryError)
    (h : repo.storeData (getTrainingProgramList after) = .error e) :
    storeOutcome repo after = .error (.repository e) := by
  rw [storeOutcome, h]
  rfl

end TrainingProgramListConfigurationControl
theorem entryType_from_json_to_json (t : TrainingProgramEntryType) :
    TrainingProgramEntryType.from_json t.to_json = .ok t := by
  cases t <;> rfl

theorem entry_from_json_to_json (t : TrainingProgramEntry) :
    TrainingProgramEntry.from_json t.to_json = .ok t := by
  simp [TrainingProgramEntry.from_json, TrainingProgramEntry.to_json, Json.atKey,
    lookupEntry_assignEntry, Json.get_string, milliseconds_from_json, milliseconds_to_json,
    Json.get_integer, entryType_from_json_to_json, bind, Except.bind, pure, Except.pure]

theorem get_elements_entry_to_json (entries : List TrainingProgramEntry) :
    Json.get_elements TrainingProgramEntry.from_json
      (entries.map TrainingProgramEntry.to_json) = .ok entries := by
  induction entries with
  | nil => rfl
  | cons t rest ih =>
    simp [Json.get_elements, entry_from_json_to_json, ih]

theorem data_from_json_to_json (t : TrainingProgramData) :
    TrainingProgramData.from_json t.to_json = .ok t := by
  simp [TrainingProgramData.from_json, TrainingProgramData.to_json, Json.atKey,
    lookupEntry_assignEntry, Json.get_string, milliseconds_from_json, milliseconds_to_json,
    Json.get_integer, Json.get_vector, Json.get_boolean, get_elements_entry_to_json,
    bind, Except.bind, pure, Except.pure]
theorem data_from_json_ok (j : Json) (data : TrainingProgramData)
    (h : TrainingProgramData.from_json j = .ok data) :
    ∃ members elements, j = .object members ∧
      lookupEntry "Id" members = some (.string data.Id) ∧
      lookupEntry "Name" members = some (.string data.Name) ∧
      lookupEntry "Duration" members = some (.number_integer data.Duration) ∧
      lookupEntry "Entries" members = some (.array elements) ∧
      Json.get_elements TrainingProgramEntry.from_json elements = .ok data.Entries ∧
      lookupEntry "ReadOnly" members = some (.boolean data.ReadOnly) := by
  cases j with
  | object members =>
    simp only [TrainingProgramData.from_json, Json.atKey, bind, Except.bind, pure,
      Except.pure] at h
    cases hId : lookupEntry "Id" members with
    | none => simp [hId] at h
    | some vId =>
      cases vId <;> simp [hId, Json.get_string] at h
      rename_i id
      cases hName : lookupEntry "Name" members with
      | none => simp [hName] at h
      | some vName =>
        cases vName <;> simp [hName, Json.get_string] at h
        rename_i name
        cases hDuration : lookupEntry "Duration" members with
        | none => simp [hDuration] at h
        | some vDuration =>
          cases vDuration <;>
            simp [hDuration, milliseconds_from_json, Json.get_integer] at h
          rename_i duration
          cases hEntries : lookupEntry "Entries" members with
          | none => simp [hEntries] at h
          | some vEntries =>
            cases vEntries <;> simp [hEntries, Json.get_vector] at h
            rename_i elements
            cases hList : Json.get_elements TrainingProgramEntry.from_json elements with
            | error e => simp [hList] at h
            | ok entries =>
              cases hReadOnly : lookupEntry "ReadOnly" members with
              | none => simp [hList, hReadOnly] at h
              | some vReadOnly =>
                cases vReadOnly <;> simp [hList, hReadOnly, Json.get_boolean] at h
                rename_i readOnly
                subst h
                exact ⟨members, elements, rfl, hId, hName, hDuration, hEntries, hList, hReadOnly⟩
  | null => simp [TrainingProgramData.from_json, Json.atKey, bind, Except.bind] at h
  | boolean b => simp [TrainingProgramData.from_json, Json.atKey, bind, Except.bind] at h
  | number_integer n => simp [TrainingProgramData.from_json, Json.atKey, bind, Except.bind] at h
  | string s => simp [TrainingProgramData.from_json, Json.atKey, bind, Except.bind] at h
  | array elements => simp [TrainingProgramData.from_json, Json.atKey, bind, Except.bind] at h
namespace TrainingProgramListConfigurationControl

theorem inconsistent_ne_unknownIdMessage (id parameterName : String) :
    "Training Program List is inconsistent" ≠ unknownIdMessage id parameterName := by
  intro h
  have hdata := congrArg String.data h
  simp only [unknownIdMessage, String.data_append, List.append_assoc, List.cons_append] at hdata
  injection hdata with _ hrest
  injection hrest with hsecond _
  exact absurd hsecond (by decide)

end TrainingProgramListConfigurationControl

/-! ## The claims -/

namespace TrainingProgramListConfigurationControl

/-- C1. From the empty controller, after any finite sequence of `addTrainingProgram`,
`removeTrainingProgram`, `swapTrainingPrograms`, `changeWorkshopFolderLocation` and
`injectTrainingProgram` calls, returning or throwing, against any repositories, in which
every generated id is not a key of the map at the time of its call, the order holds no id
twice and holds exactly the keys of the map. -/
theorem reachable_state_consistent (calls : List (ITrainingProgramRepository × Call))
    (hfresh : GeneratedIdsUnused calls emptyControl) :
    (performAll calls emptyControl)._trainingProgramOrder.Nodup ∧
      ∀ id, id ∈ (performAll calls emptyControl)._trainingProgramOrder ↔
        id ∈ (performAll calls emptyControl)._trainingProgramData.keys :=
  (consistent_iff _).mp (consistent_performAll calls emptyControl consistent_emptyControl hfresh)

/-- The sample run generates only unused ids and ends with three programs in a consistent object. -/
theorem reachable_state_consistent_witness :
    GeneratedIdsUnused sampleCalls emptyControl ∧
    (performAll sampleCalls emptyControl)._trainingProgramOrder = ["x", "p1", "p3"] ∧
    (performAll sampleCalls emptyControl)._trainingProgramOrder.Nodup ∧
      ∀ id, id ∈ (performAll sampleCalls emptyControl)._trainingProgramOrder ↔
        id ∈ (performAll sampleCalls emptyControl)._trainingProgramData.keys :=
  ⟨by decide, by decide, reachable_state_consistent sampleCalls (by decide)⟩

/-- C2, as stated, fails. When the generator returns `"u"` twice in a row, both
`addTrainingProgram` calls return `"u"`, which is a key of the map and in the order before
the second call. When the order names `"u"` but the map does not hold it, the call returns
`"u"`, which is in the order before the call. -/
theorem addTrainingProgram_returns_used_id :
    (addTrainingProgram okRepository "u" emptyControl).result = .ok "u" ∧
    (addTrainingProgram okRepository "u" controlWithU).result = .ok "u" ∧
    "u" ∈ controlWithU._trainingProgramData.keys ∧
    "u" ∈ controlWithU._trainingProgramOrder ∧
    "u" ∉ controlWithOrphanU._trainingProgramData.keys ∧
    (addTrainingProgram okRepository "u" controlWithOrphanU).result = .ok "u" ∧
    "u" ∈ controlWithOrphanU._trainingProgramOrder := by
  decide

/-- C2, amended. On an object that satisfies the order/mapping invariant, when the generated
id `g` is not a key of the map, `addTrainingProgram` returns `g` as soon as the store call
returns normally, it never returns anything else, and what it returns is neither a key of the
map nor in the order before the call. A second call whose generated id is not a key of the
map at the time of that call returns a different id. -/
theorem addTrainingProgram_returns_unused_id (repo repo' : ITrainingProgramRepository)
    (c : TrainingProgramListConfigurationControl) (g g' : String)
    (hc : Consistent c) (hg : g ∉ c._trainingProgramData.keys)
    (hg' : g' ∉ (addTrainingProgram repo g c).control._trainingProgramData.keys) :
    (repo.storeData (getTrainingProgramList (addTrainingProgram repo g c).control) = .ok () →
      (addTrainingProgram repo g c).result = .ok g) ∧
    (∀ id, (addTrainingProgram repo g c).result = .ok id →
      id = g ∧ id ∉ c._trainingProgramData.keys ∧ id ∉ c._trainingProgramOrder) ∧
    (∀ id id', (addTrainingProgram repo g c).result = .ok id →
      (addTrainingProgram repo' g' (addTrainingProgram repo g c).control).result = .ok id' →
      id ≠ id') := by
  refine ⟨addTrainingProgram_result_of_ok repo g c, ?_, ?_⟩
  · intro id h
    have e := addTrainingProgram_result_ok repo g id c h
    subst e
    exact ⟨rfl, hg, fun e => hg ((((consistent_iff c).mp hc).2 id).mp e)⟩
  · intro id id' h h' e
    have e1 := addTrainingProgram_result_ok repo g id c h
    have e2 := addTrainingProgram_result_ok repo' g' id' _ h'
    apply hg'
    rw [addTrainingProgram_control, StdMap.mem_keys_emplace]
    exact Or.inl (by rw [← e2, ← e, e1])

/-- On the object that holds "u", generated ids "v" and then "w" are returned and differ. -/
theorem addTrainingProgram_returns_unused_id_witness :
    (Consistent controlWithU ∧ "v" ∉ controlWithU._trainingProgramData.keys ∧
      "w" ∉ (addTrainingProgram okRepository "v" controlWithU).control._trainingProgramData.keys) ∧
    (addTrainingProgram okRepository "v" controlWithU).result = .ok "v" ∧
    (∀ id id', (addTrainingProgram okRepository "v" controlWithU).result = .ok id →
      (addTrainingProgram okRepository "w"
        (addTrainingProgram okRepository "v" controlWithU).control).result = .ok id' →
      id ≠ id') :=
  have h := addTrainingProgram_returns_unused_id okRepository okRepository controlWithU
    "v" "w" (by decide) (by decide) (by decide)
  ⟨⟨by decide, by decide, by decide⟩, h.1 rfl, h.2.2⟩

/-- C3. When the generated id `g` is not a key of the map, `addTrainingProgram` returns `g`
as soon as the store call returns normally and never returns anything else; whatever the
store call does, the order is the old order with `g` appended, the map holds under `g` a
record with `Id = g`, the name "New Training Program", a zero duration and no entries, every
other key maps to what it mapped to, and the location and the receivers are untouched. Two
calls on the empty controller with generated ids `p1` and `p2` leave the order `[p1, p2]`. -/
theorem addTrainingProgram_appends_default_record (repo repo1 repo2 : ITrainingProgramRepository)
    (c : TrainingProgramListConfigurationControl) (g p1 p2 : String)
    (hg : g ∉ c._trainingProgramData.keys) :
    (repo.storeData (getTrainingProgramList (addTrainingProgram repo g c).control) = .ok () →
      (addTrainingProgram repo g c).result = .ok g) ∧
    (∀ id, (addTrainingProgram repo g c).result = .ok id → id = g) ∧
    (addTrainingProgram repo g c).control._trainingProgramOrder =
      c._trainingProgramOrder ++ [g] ∧
    c._trainingProgramOrder <+: (addTrainingProgram repo g c).control._trainingProgramOrder ∧
    ((addTrainingProgram repo g c).control._trainingProgramData.find? g).map
      (fun r => (r.Id, r.Name, r.Duration, r.Entries)) =
        some (g, "New Training Program", 0, []) ∧
    (∀ k, k ≠ g → (addTrainingProgram repo g c).control._trainingProgramData.find? k =
      c._trainingProgramData.find? k) ∧
    (∀ k, k ∈ (addTrainingProgram repo g c).control._trainingProgramData.keys ↔
      k = g ∨ k ∈ c._trainingProgramData.keys) ∧
    (addTrainingProgram repo g c).control._workshopFolderLocation = c._workshopFolderLocation ∧
    (addTrainingProgram repo g c).control._receivers = c._receivers ∧
    (addTrainingProgram repo2 p2
      (addTrainingProgram repo1 p1 emptyControl).control).control._trainingProgramOrder =
        [p1, p2] := by
  refine ⟨?_, ?_, ?_, ?_, ?_, ?_, ?_, ?_, ?_, ?_⟩
  · exact addTrainingProgram_result_of_ok repo g c
  · exact fun id h => addTrainingProgram_result_ok repo g id c h
  · rw [addTrainingProgram_control]
  · rw [addTrainingProgram_control]
    exact List.prefix_append _ _
  · rw [addTrainingProgram_control]
    simp only []
    rw [StdMap.find?_emplace_self _ _ _ hg]
    rfl
  · intro k hk
    rw [addTrainingProgram_control]
    exact StdMap.find?_emplace_ne _ _ _ _ hk
  · intro k
    rw [addTrainingProgram_control]
    exact StdMap.mem_keys_emplace _ _ _ _
  · rw [addTrainingProgram_control]
  · rw [addTrainingProgram_control]
  · rw [addTrainingProgram_control, addTrainingProgram_control]
    rfl

/-- Adding "p4" to the object with three programs, and adding "p" and "q" to the empty one. -/
theorem addTrainingProgram_appends_default_record_witness :
    "p4" ∉ controlWithThree._trainingProgramData.keys ∧
    (addTrainingProgram okRepository "p4" controlWithThree).result = .ok "p4" ∧
    (addTrainingProgram okRepository "p4" controlWithThree).control._trainingProgramOrder =
      ["p1", "p2", "p3"] ++ ["p4"] ∧
    (addTrainingProgram okRepository "q"
      (addTrainingProgram failingRepository "p" emptyControl).control).control._trainingProgramOrder =
        ["p", "q"] :=
  have h := addTrainingProgram_appends_default_record okRepository failingRepository okRepository
    controlWithThree "p4" "p" "q" (by decide)
  ⟨by decide, h.1 rfl, h.2.2.1, h.2.2.2.2.2.2.2.2.2⟩

/-- C4, as stated, fails. After restoring a stored list whose order is `["a", "a", "b"]`,
both ids are keys of the map and occur in the order, both `swapTrainingPrograms("a", "b")`
calls return normally, and the order after the second call is `["a", "b", "a"]`. -/
theorem swapTrainingPrograms_twice_changes_order :
    "a" ∈ controlWithDuplicate._trainingProgramData.keys ∧
    "b" ∈ controlWithDuplicate._trainingProgramData.keys ∧
    controlWithDuplicate._trainingProgramOrder = ["a", "a", "b"] ∧
    (swapTrainingPrograms okRepository "a" "b" controlWithDuplicate).result = .ok () ∧
    (swapTrainingPrograms okRepository "a" "b"
      (swapTrainingPrograms okRepository "a" "b" controlWithDuplicate).control).result = .ok () ∧
    (swapTrainingPrograms okRepository "a" "b"
      (swapTrainingPrograms okRepository "a" "b"
        controlWithDuplicate).control).control._trainingProgramOrder = ["a", "b", "a"] := by
  decide

/-- C4, amended. When the order holds no id twice and `a` and `b` are keys of the map that
occur in the order, two `swapTrainingPrograms(a, b)` calls in a row throw nothing of their
own: each hands the outcome of its store call to the caller, so it returns normally when the
store call does. Whatever the store calls do, the object after the second call is the object
before the first: the order, the map and the location are restored. -/
theorem swapTrainingPrograms_twice_restores_order (repo1 repo2 : ITrainingProgramRepository)
    (c : TrainingProgramListConfigurationControl) (a b : String)
    (hnodup : c._trainingProgramOrder.Nodup)
    (ha : a ∈ c._trainingProgramData.keys) (hb : b ∈ c._trainingProgramData.keys)
    (hao : a ∈ c._trainingProgramOrder) (hbo : b ∈ c._trainingProgramOrder) :
    (swapTrainingPrograms repo1 a b c).result =
      storeOutcome repo1 (swapTrainingPrograms repo1 a b c).control ∧
    (swapTrainingPrograms repo2 a b (swapTrainingPrograms repo1 a b c).control).result =
      storeOutcome repo2
        (swapTrainingPrograms repo2 a b (swapTrainingPrograms repo1 a b c).control).control ∧
    (repo1.storeData (getTrainingProgramList (swapTrainingPrograms repo1 a b c).control) =
        .ok () →
      (swapTrainingPrograms repo1 a b c).result = .ok ()) ∧
    (repo2.storeData (getTrainingProgramList (swapTrainingPrograms repo2 a b
        (swapTrainingPrograms repo1 a b c).control).control) = .ok () →
      (swapTrainingPrograms repo2 a b (swapTrainingPrograms repo1 a b c).control).result =
        .ok ()) ∧
    (swapTrainingPrograms repo2 a b
      (swapTrainingPrograms repo1 a b c).control).control._trainingProgramOrder =
        c._trainingProgramOrder ∧
    (swapTrainingPrograms repo2 a b (swapTrainingPrograms repo1 a b c).control).control = c := by
  have hi : c._trainingProgramOrder.indexOf a < c._trainingProgramOrder.length :=
    List.indexOf_lt_length.mpr hao
  have hj : c._trainingProgramOrder.indexOf b < c._trainingProgramOrder.length :=
    List.indexOf_lt_length.mpr hbo
  have hperm := iter_swap_perm c._trainingProgramOrder (c._trainingProgramOrder.indexOf a)
    (c._trainingProgramOrder.indexOf b)
  have hia : (iter_swap c._trainingProgramOrder (c._trainingProgramOrder.indexOf a)
      (c._trainingProgramOrder.indexOf b)).indexOf a = c._trainingProgramOrder.indexOf b := by
    apply indexOf_of_getElem? _ _ _ (hperm.nodup_iff.mpr hnodup)
    rw [getElem?_iter_swap _ _ _ _ hi hj]
    simp [List.getElem_indexOf hi]
  have hib : (iter_swap c._trainingProgramOrder (c._trainingProgramOrder.indexOf a)
      (c._trainingProgramOrder.indexOf b)).indexOf b = c._trainingProgramOrder.indexOf a := by
    apply indexOf_of_getElem? _ _ _ (hperm.nodup_iff.mpr hnodup)
    rw [getElem?_iter_swap _ _ _ _ hi hj]
    by_cases h : c._trainingProgramOrder.indexOf a = c._trainingProgramOrder.indexOf b
    · have hab : a = b := by
        rw [← List.getElem_indexOf hi, ← List.getElem_indexOf hj]
        simp [h]
      simp [h, List.getElem_indexOf hj, hab]
    · simp [h, List.getElem_indexOf hj]
  have h1 := swapTrainingPrograms_of_mem repo1 a b c ha hb hao hbo
  have h2 := swapTrainingPrograms_of_mem repo2 a b (swapTrainingPrograms repo1 a b c).control
    (by rw [h1, notifyReceivers_control]; exact ha)
    (by rw [h1, notifyReceivers_control]; exact hb)
    (by rw [h1, notifyReceivers_control]; exact hperm.mem_iff.mpr hao)
    (by rw [h1, notifyReceivers_control]; exact hperm.mem_iff.mpr hbo)
  have hback : (swapTrainingPrograms repo2 a b (swapTrainingPrograms repo1 a b c).control).control
      = c := by
    rw [h2, notifyReceivers_control, h1, notifyReceivers_control]
    simp only [hia, hib, iter_swap_iter_swap _ _ _ hi hj]
  have hr1 : (swapTrainingPrograms repo1 a b c).result =
      storeOutcome repo1 (swapTrainingPrograms repo1 a b c).control := by
    rw [h1, notifyReceivers_result, notifyReceivers_control]
  have hr2 : (swapTrainingPrograms repo2 a b (swapTrainingPrograms repo1 a b c).control).result =
      storeOutcome repo2
        (swapTrainingPrograms repo2 a b (swapTrainingPrograms repo1 a b c).control).control := by
    rw [h2, notifyReceivers_result, notifyReceivers_control]
  refine ⟨hr1, hr2, ?_, ?_, ?_, hback⟩
  · intro hs
    rw [hr1, storeOutcome_of_ok repo1 _ hs]
  · intro hs
    rw [hr2, storeOutcome_of_ok repo2 _ hs]
  · rw [hback]

/-- Swapping "p1" and "p3" twice on the object with three programs. -/
theorem swapTrainingPrograms_twice_restores_order_witness :
    (controlWithThree._trainingProgramOrder.Nodup ∧
      "p1" ∈ controlWithThree._trainingProgramData.keys ∧
      "p3" ∈ controlWithThree._trainingProgramData.keys ∧
      "p1" ∈ controlWithThree._trainingProgramOrder ∧
      "p3" ∈ controlWithThree._trainingProgramOrder) ∧
    (swapTrainingPrograms okRepository "p1" "p3" controlWithThree).control._trainingProgramOrder =
      ["p3", "p2", "p1"] ∧
    (swapTrainingPrograms okRepository "p1" "p3" controlWithThree).result = .ok () ∧
    (swapTrainingPrograms okRepository "p1" "p3"
      (swapTrainingPrograms okRepository "p1" "p3" controlWithThree).control).result = .ok () ∧
    (swapTrainingPrograms okRepository "p1" "p3"
      (swapTrainingPrograms okRepository "p1" "p3"
        controlWithThree).control).control._trainingProgramOrder =
          controlWithThree._trainingProgramOrder :=
  have h := swapTrainingPrograms_twice_restores_order okRepository okRepository controlWithThree
    "p1" "p3" (by decide) (by decide) (by decide) (by decide) (by decide)
  ⟨⟨by decide, by decide, by decide, by decide, by decide⟩, by decide, h.2.2.1 rfl,
    h.2.2.2.1 rfl, h.2.2.2.2.1⟩
/-- C5. `injectTrainingProgram` is an upsert by id. The call throws nothing of its own. When
`data.Id` is a key of the map, the order is unchanged; when it is not, the new order is
`data.Id` followed by the old order. In both cases `getTrainingProgramData(data.Id)` returns
exactly `data` afterwards, every other key maps to what it mapped to, and the location and
the receivers are untouched. A record with `Id = "x"` and `Name = "Imported"` injected into
the empty controller leaves the order `["x"]`. -/
theorem injectTrainingProgram_upsert (repo : ITrainingProgramRepository)
    (c : TrainingProgramListConfigurationControl) (data : TrainingProgramData)
    (duration : Int) (entries : List TrainingProgramEntry) (readOnly : Bool) :
    (injectTrainingProgram repo data c).result =
      storeOutcome repo (injectTrainingProgram repo data c).control ∧
    (data.Id ∈ c._trainingProgramData.keys →
      (injectTrainingProgram repo data c).control._trainingProgramOrder =
        c._trainingProgramOrder) ∧
    (data.Id ∉ c._trainingProgramData.keys →
      (injectTrainingProgram repo data c).control._trainingProgramOrder =
        data.Id :: c._trainingProgramOrder) ∧
    (getTrainingProgramData data.Id (injectTrainingProgram repo data c).control).result =
      .ok data ∧
    (∀ k, (injectTrainingProgram repo data c).control._trainingProgramData.find? k =
      if k = data.Id then some data else c._trainingProgramData.find? k) ∧
    (∀ k, k ∈ (injectTrainingProgram repo data c).control._trainingProgramData.keys ↔
      k = data.Id ∨ k ∈ c._trainingProgramData.keys) ∧
    (injectTrainingProgram repo data c).control._workshopFolderLocation =
      c._workshopFolderLocation ∧
    (injectTrainingProgram repo data c).control._receivers = c._receivers ∧
    (injectTrainingProgram repo ⟨"x", "Imported", duration, entries, readOnly⟩
      emptyControl).control._trainingProgramOrder = ["x"] := by
  have hfind := injectTrainingProgram_find? repo data c
  refine ⟨injectTrainingProgram_result repo data c, ?_, ?_, ?_, hfind, ?_, ?_, ?_, ?_⟩
  · intro h
    rw [injectTrainingProgram_control_of_mem repo data c h]
  · intro h
    rw [injectTrainingProgram_control_of_not_mem repo data c h]
  · rw [getTrainingProgramData_of_find? data.Id _ data (by rw [hfind]; simp)]
  · intro k
    rw [StdMap.mem_keys_iff, hfind, StdMap.mem_keys_iff]
    by_cases hk : k = data.Id <;> simp [hk]
  · by_cases h : data.Id ∈ c._trainingProgramData.keys
    · rw [injectTrainingProgram_control_of_mem repo data c h]
    · rw [injectTrainingProgram_control_of_not_mem repo data c h]
  · by_cases h : data.Id ∈ c._trainingProgramData.keys
    · rw [injectTrainingProgram_control_of_mem repo data c h]
    · rw [injectTrainingProgram_control_of_not_mem repo data c h]
  · rw [injectTrainingProgram_control_of_not_mem repo _ emptyControl
      (by simp [emptyControl, StdMap.keys_empty])]
    rfl

/-- C6. When `id` is a key of the map, `removeTrainingProgram(id)` throws nothing of its own
(it hands the outcome of its store call to the caller, so it returns normally when the store
call does) and, whatever the store call did, a following `getTrainingProgramData(id)` throws
the "no training program with ID" error and leaves the object alone. -/
theorem removeTrainingProgram_then_getTrainingProgramData (repo : ITrainingProgramRepository)
    (c : TrainingProgramListConfigurationControl) (id : String)
    (hid : id ∈ c._trainingProgramData.keys) :
    (removeTrainingProgram repo id c).result =
      storeOutcome repo (removeTrainingProgram repo id c).control ∧
    (repo.storeData (getTrainingProgramList (removeTrainingProgram repo id c).control) =
        .ok () →
      (removeTrainingProgram repo id c).result = .ok ()) ∧
    getTrainingProgramData id (removeTrainingProgram repo id c).control =
      ⟨.error (.runtime_error (unknownIdMessage id "training program ID")),
        (removeTrainingProgram repo id c).control, []⟩ := by
  have hr := removeTrainingProgram_result_of_mem repo id c hid
  refine ⟨hr, ?_, ?_⟩
  · intro hs
    rw [hr, storeOutcome_of_ok repo _ hs]
  · apply getTrainingProgramData_of_not_mem
    rw [removeTrainingProgram_control_of_mem repo id c hid, StdMap.mem_keys_erase]
    exact fun h => h.1 rfl

/-- Removing "p2" from the object with three programs and asking for it afterwards. -/
theorem removeTrainingProgram_then_getTrainingProgramData_witness :
    "p2" ∈ controlWithThree._trainingProgramData.keys ∧
    (removeTrainingProgram okRepository "p2" controlWithThree).result = .ok () ∧
    (getTrainingProgramData "p2"
      (removeTrainingProgram okRepository "p2" controlWithThree).control).result =
        .error (.runtime_error
          "There is no training program with ID p2 (parameter training program ID)") :=
  have h := removeTrainingProgram_then_getTrainingProgramData okRepository controlWithThree
    "p2" (by decide)
  ⟨by decide, h.2.1 rfl, by rw [h.2.2]; decide⟩

/-- C7. On an object that satisfies the order/mapping invariant, `removeTrainingProgram(id)`
for a key `id` of the map leaves, whatever the store call does: the old order without `id`,
the other ids in their old relative order; a map in which `id` is no key and every other key
maps to what it mapped to; the old location and receivers. So `id` is neither in the order
nor a key of the map afterwards, and the invariant still holds. -/
theorem removeTrainingProgram_deletes (repo : ITrainingProgramRepository)
    (c : TrainingProgramListConfigurationControl) (id : String)
    (hc : Consistent c) (hid : id ∈ c._trainingProgramData.keys) :
    (removeTrainingProgram repo id c).control._trainingProgramOrder =
      c._trainingProgramOrder.filter (fun x => decide (x ≠ id)) ∧
    (∃ before after, c._trainingProgramOrder = before ++ id :: after ∧
      (removeTrainingProgram repo id c).control._trainingProgramOrder = before ++ after) ∧
    (∀ k, (removeTrainingProgram repo id c).control._trainingProgramData.find? k =
      if k = id then none else c._trainingProgramData.find? k) ∧
    (∀ k, k ∈ (removeTrainingProgram repo id c).control._trainingProgramData.keys ↔
      k ≠ id ∧ k ∈ c._trainingProgramData.keys) ∧
    (removeTrainingProgram repo id c).control._workshopFolderLocation =
      c._workshopFolderLocation ∧
    (removeTrainingProgram repo id c).control._receivers = c._receivers ∧
    id ∉ (removeTrainingProgram repo id c).control._trainingProgramOrder ∧
    id ∉ (removeTrainingProgram repo id c).control._trainingProgramData.keys ∧
    Consistent (removeTrainingProgram repo id c).control := by
  have hctl := removeTrainingProgram_control_of_mem repo id c hid
  have hido : id ∈ c._trainingProgramOrder := (((consistent_iff c).mp hc).2 id).mpr hid
  have hfilter : c._trainingProgramOrder.erase id =
      c._trainingProgramOrder.filter (fun x => decide (x ≠ id)) := by
    rw [hc.1.erase_eq_filter]
    congr 1
    funext x
    by_cases hx : x = id <;> simp [hx]
  refine ⟨?_, ?_, ?_, ?_, ?_, ?_, ?_, ?_, ?_⟩
  · rw [hctl]
    exact hfilter
  · obtain ⟨before, after, hnot, hsplit, herase⟩ := List.exists_erase_eq hido
    exact ⟨before, after, hsplit, by rw [hctl]; exact herase⟩
  · intro k
    rw [hctl]
    exact StdMap.find?_erase _ _ _
  · intro k
    rw [hctl]
    exact StdMap.mem_keys_erase _ _ _
  · rw [hctl]
  · rw [hctl]
  · rw [hctl]
    exact fun h => ((hc.1.mem_erase_iff).mp h).1 rfl
  · rw [hctl, StdMap.mem_keys_erase]
    exact fun h => h.1 rfl
  · exact consistent_perform repo (.removeTrainingProgram id) c hc trivial

/-- Removing "p2" from the object with three programs while the store call fails. -/
theorem removeTrainingProgram_deletes_witness :
    (Consistent controlWithThree ∧ "p2" ∈ controlWithThree._trainingProgramData.keys) ∧
    (removeTrainingProgram failingRepository "p2" controlWithThree).control._trainingProgramOrder =
      ["p1", "p3"] ∧
    (removeTrainingProgram failingRepository "p2"
      controlWithThree).control._trainingProgramData.keys = ["p1", "p3"] ∧
    Consistent (removeTrainingProgram failingRepository "p2" controlWithThree).control :=
  have h := removeTrainingProgram_deletes failingRepository controlWithThree "p2" (by decide)
    (by decide)
  ⟨⟨by decide, by decide⟩, by rw [h.1]; decide, by decide, h.2.2.2.2.2.2.2.2⟩

/-- C8. `removeTrainingProgram(id)` and `getTrainingProgramData(id)` throw the "no training
program with ID" error exactly when `id` is not a key of the map, and
`swapTrainingPrograms(a, b)` throws it for `a` when `a` is not a key and for `b` when `a` is
a key and `b` is not. Each such call leaves the whole object as it was and calls neither a
receiver nor the repository. -/
theorem unknown_id_fails_fast (repo : ITrainingProgramRepository)
    (c : TrainingProgramListConfigurationControl) (id a b : String) :
    ((removeTrainingProgram repo id c).result =
        .error (.runtime_error (unknownIdMessage id "training program ID")) ↔
      id ∉ c._trainingProgramData.keys) ∧
    ((getTrainingProgramData id c).result =
        .error (.runtime_error (unknownIdMessage id "training program ID")) ↔
      id ∉ c._trainingProgramData.keys) ∧
    (id ∉ c._trainingProgramData.keys →
      removeTrainingProgram repo id c =
        ⟨.error (.runtime_error (unknownIdMessage id "training program ID")), c, []⟩) ∧
    (id ∉ c._trainingProgramData.keys →
      getTrainingProgramData id c =
        ⟨.error (.runtime_error (unknownIdMessage id "training program ID")), c, []⟩) ∧
    (a ∉ c._trainingProgramData.keys →
      swapTrainingPrograms repo a b c =
        ⟨.error (.runtime_error (unknownIdMessage a "first training program ID")), c, []⟩) ∧
    (a ∈ c._trainingProgramData.keys → b ∉ c._trainingProgramData.keys →
      swapTrainingPrograms repo a b c =
        ⟨.error (.runtime_error (unknownIdMessage b "second training program ID")), c, []⟩) := by
  refine ⟨?_, ?_, removeTrainingProgram_of_not_mem repo id c,
    getTrainingProgramData_of_not_mem id c, swapTrainingPrograms_of_first_not_mem repo a b c,
    swapTrainingPrograms_of_second_not_mem repo a b c⟩
  · constructor
    · intro h hid
      rw [removeTrainingProgram_result_of_mem repo id c hid] at h
      exact storeOutcome_ne_runtime_error repo _ _ h
    · intro hid
      rw [removeTrainingProgram_of_not_mem repo id c hid]
  · constructor
    · intro h hid
      obtain ⟨v, hv⟩ := Option.isSome_iff_exists.mp ((StdMap.mem_keys_iff _ _).mp hid)
      rw [getTrainingProgramData_of_find? id c v hv] at h
      cases h
    · intro hid
      rw [getTrainingProgramData_of_not_mem id c hid]


/-- C9. On an object that satisfies the order/mapping invariant, with `a` at position `i`
and `b` at position `j` of the order, `swapTrainingPrograms(a, b)` throws nothing of its own
and leaves, whatever the store call does: an order of the same length with `b` at position
`i`, `a` at position `j` and every other position unchanged, which is a permutation of the
old order; the old map, location and receivers. -/
theorem swapTrainingPrograms_exchanges_positions (repo : ITrainingProgramRepository)
    (c : TrainingProgramListConfigurationControl) (a b : String) (i j : Nat)
    (hc : Consistent c) (hi : c._trainingProgramOrder[i]? = some a)
    (hj : c._trainingProgramOrder[j]? = some b) :
    (swapTrainingPrograms repo a b c).result =
      storeOutcome repo (swapTrainingPrograms repo a b c).control ∧
    (swapTrainingPrograms repo a b c).control._trainingProgramOrder.length =
      c._trainingProgramOrder.length ∧
    (swapTrainingPrograms repo a b c).control._trainingProgramOrder[i]? = some b ∧
    (swapTrainingPrograms repo a b c).control._trainingProgramOrder[j]? = some a ∧
    (∀ k, k ≠ i → k ≠ j →
      (swapTrainingPrograms repo a b c).control._trainingProgramOrder[k]? =
        c._trainingProgramOrder[k]?) ∧
    (swapTrainingPrograms repo a b c).control._trainingProgramOrder.Perm
      c._trainingProgramOrder ∧
    (swapTrainingPrograms repo a b c).control._trainingProgramData = c._trainingProgramData ∧
    (swapTrainingPrograms repo a b c).control._workshopFolderLocation =
      c._workshopFolderLocation ∧
    (swapTrainingPrograms repo a b c).control._receivers = c._receivers := by
  obtain ⟨hilt, hia⟩ := List.getElem?_eq_some_iff.mp hi
  obtain ⟨hjlt, hjb⟩ := List.getElem?_eq_some_iff.mp hj
  have hao : a ∈ c._trainingProgramOrder := hia ▸ List.getElem_mem hilt
  have hbo : b ∈ c._trainingProgramOrder := hjb ▸ List.getElem_mem hjlt
  have hswap := swapTrainingPrograms_of_mem repo a b c ((((consistent_iff c).mp hc).2 a).mp hao) ((((consistent_iff c).mp hc).2 b).mp hbo)
    hao hbo
  rw [indexOf_of_getElem? _ i a hc.1 hi, indexOf_of_getElem? _ j b hc.1 hj] at hswap
  have hctl : (swapTrainingPrograms repo a b c).control =
      { c with _trainingProgramOrder := iter_swap c._trainingProgramOrder i j } := by
    rw [hswap, notifyReceivers_control]
  refine ⟨?_, ?_, ?_, ?_, ?_, ?_, ?_, ?_, ?_⟩
  · rw [hswap, notifyReceivers_result, notifyReceivers_control]
  · rw [hctl]
    exact length_iter_swap _ _ _
  · rw [hctl]
    simp only []
    rw [getElem?_iter_swap _ _ _ _ hilt hjlt]
    by_cases h : i = j
    · subst h
      rw [hia] at hjb
      simp [hia, hjb]
    · simp [h, hjb]
  · rw [hctl]
    simp only []
    rw [getElem?_iter_swap _ _ _ _ hilt hjlt]
    simp [hia]
  · intro k hki hkj
    rw [hctl]
    simp only []
    rw [getElem?_iter_swap _ _ _ _ hilt hjlt]
    simp [hki, hkj]
  · rw [hctl]
    exact iter_swap_perm _ _ _
  · rw [hctl]
  · rw [hctl]
  · rw [hctl]

/-- Swapping "p3" at position 2 with "p1" at position 0 on the object with three programs. -/
theorem swapTrainingPrograms_exchanges_positions_witness :
    (Consistent controlWithThree ∧ controlWithThree._trainingProgramOrder[2]? = some "p3" ∧
      controlWithThree._trainingProgramOrder[0]? = some "p1") ∧
    (swapTrainingPrograms okRepository "p3" "p1" controlWithThree).result = .ok () ∧
    (swapTrainingPrograms okRepository "p3" "p1"
      controlWithThree).control._trainingProgramOrder = ["p3", "p2", "p1"] ∧
    (swapTrainingPrograms okRepository "p3" "p1"
      controlWithThree).control._trainingProgramOrder[2]? = some "p1" ∧
    (swapTrainingPrograms okRepository "p3" "p1"
      controlWithThree).control._trainingProgramOrder[0]? = some "p3" :=
  have h := swapTrainingPrograms_exchanges_positions okRepository controlWithThree "p3" "p1"
    2 0 (by decide) (by decide) (by decide)
  ⟨⟨by decide, by decide, by decide⟩, h.1, by decide, h.2.2.1, h.2.2.2.1⟩

/-- C10. Every `addTrainingProgram`, `removeTrainingProgram`, `swapTrainingPrograms`,
`changeWorkshopFolderLocation` or `injectTrainingProgram` call that returns normally makes
exactly these collaborator calls, in this order: one `receiveListData` per registration, in
registration order (a receiver registered twice is called twice), then one `storeData`; all
of them carry `getTrainingProgramList()` of the object after the mutation, which is the order,
the map and the location that object holds. The registrations themselves are unchanged. -/
theorem successful_call_notifies_then_stores (repo : ITrainingProgramRepository) (call : Call)
    (c : TrainingProgramListConfigurationControl)
    (hok : (perform repo call c).result = .ok ()) :
    (perform repo call c).events =
      c._receivers.map (fun receiver =>
        Event.receiveListData receiver (getTrainingProgramList (perform repo call c).control))
      ++ [Event.storeData (getTrainingProgramList (perform repo call c).control)] ∧
    getTrainingProgramList (perform repo call c).control =
      ⟨(perform repo call c).control._trainingProgramOrder,
        (perform repo call c).control._trainingProgramData,
        (perform repo call c).control._workshopFolderLocation⟩ ∧
    (perform repo call c).control._receivers = c._receivers := by
  have hreceivers := perform_receivers repo call c
  refine ⟨?_, getTrainingProgramList_eq _, hreceivers⟩
  rw [← hreceivers]
  cases call with
  | addTrainingProgram g =>
    simp only [perform, addTrainingProgram_events]
    exact notifyReceivers_events repo _
  | removeTrainingProgram id =>
    by_cases hid : id ∈ c._trainingProgramData.keys
    · simp only [perform, removeTrainingProgram, ensureIdIsKnown_of_mem c id _ hid]
      exact notifyReceivers_protocol repo _
    · simp [perform, removeTrainingProgram_of_not_mem repo id c hid] at hok
  | swapTrainingPrograms a b =>
    rcases swapTrainingPrograms_cases repo a b c with ⟨what, h⟩ | h
    · simp [perform, h] at hok
    · simp only [perform, h]
      exact notifyReceivers_protocol repo _
  | changeWorkshopFolderLocation newLocation =>
    exact notifyReceivers_protocol repo _
  | injectTrainingProgram data =>
    exact notifyReceivers_protocol repo _

/-- Injecting a program while receiver 7 is registered twice and receiver 9 once. -/
theorem successful_call_notifies_then_stores_witness :
    (perform okRepository (.injectTrainingProgram ⟨"x", "Imported", 0, [], false⟩)
      controlWithReceivers).result = .ok () ∧
    (perform okRepository (.injectTrainingProgram ⟨"x", "Imported", 0, [], false⟩)
      controlWithReceivers).events =
        [Event.receiveListData 7 ⟨["x"], StdMap.empty.emplace "x" ⟨"x", "Imported", 0, [], false⟩, ""⟩,
          Event.receiveListData 9 ⟨["x"], StdMap.empty.emplace "x" ⟨"x", "Imported", 0, [], false⟩, ""⟩,
          Event.receiveListData 7 ⟨["x"], StdMap.empty.emplace "x" ⟨"x", "Imported", 0, [], false⟩, ""⟩,
          Event.storeData ⟨["x"], StdMap.empty.emplace "x" ⟨"x", "Imported", 0, [], false⟩, ""⟩] :=
  have h := successful_call_notifies_then_stores okRepository
    (.injectTrainingProgram ⟨"x", "Imported", 0, [], false⟩) controlWithReceivers (by decide)
  ⟨by decide, by rw [h.1]; decide⟩

/-- C11. Whatever the state, the path and the answer of the repository, `restoreData` makes
no `storeData` call. When the repository returns a snapshot `d`, the collaborator calls are
the one `restoreData` call on the repository followed by one `receiveListData` per
registration, in registration order, each carrying `d`, which is also what
`getTrainingProgramList()` returns afterwards; the call returns normally. -/
theorem restoreData_never_stores (repo : ITrainingProgramRepository) (path : String)
    (c : TrainingProgramListConfigurationControl) :
    storeCalls (restoreData repo path c).events = 0 ∧
    (∀ listData, Event.storeData listData ∉ (restoreData repo path c).events) ∧
    (∀ d, repo.restoreData (askedPath path) = .ok d →
      (restoreData repo path c).events =
        Event.restoreData (askedPath path) ::
          c._receivers.map (fun receiver => Event.receiveListData receiver d) ∧
      getTrainingProgramList (restoreData repo path c).control = d ∧
      (restoreData repo path c).control._receivers = c._receivers ∧
      (restoreData repo path c).result = .ok ()) := by
  cases h : repo.restoreData (askedPath path) with
  | error e =>
    rw [restoreData_of_error repo path c e h]
    refine ⟨rfl, ?_, ?_⟩
    · intro listData hmem
      simp at hmem
    · intro d hd
      cases hd
  | ok d =>
    rw [restoreData_of_ok repo path c d h]
    refine ⟨?_, ?_, ?_⟩
    · have := storeCalls_deliveries c._receivers d
      simp only [storeCalls, List.countP_cons] at this ⊢
      rw [this]
      rfl
    · intro listData hmem
      rcases List.mem_cons.mp hmem with hhead | htail
      · cases hhead
      · exact storeData_not_mem_deliveries _ _ _ htail
    · intro d' hd'
      cases hd'
      exact ⟨rfl, getTrainingProgramList_eq _, rfl, rfl⟩

/-- C12. When the repository returns the snapshot `d`, `restoreData(path)` returns normally
and the object holds the order, the map and the location of `d` and nothing else, so
`getTrainingProgramList()` returns `d`; the receivers stay registered. The repository was
asked once, first of all collaborator calls: without a path when `path` is empty, with
exactly `path` otherwise. -/
theorem restoreData_replaces_state (repo : ITrainingProgramRepository) (path : String)
    (c : TrainingProgramListConfigurationControl) (d : TrainingProgramListData)
    (hd : repo.restoreData (askedPath path) = .ok d) :
    (restoreData repo path c).result = .ok () ∧
    (restoreData repo path c).control._trainingProgramOrder = d.TrainingProgramOrder ∧
    (restoreData repo path c).control._trainingProgramData = d.TrainingProgramData ∧
    (restoreData repo path c).control._workshopFolderLocation = d.WorkshopFolderLocation ∧
    getTrainingProgramList (restoreData repo path c).control = d ∧
    (restoreData repo path c).control._receivers = c._receivers ∧
    (path = "" → (restoreData repo path c).events.head? = some (Event.restoreData none)) ∧
    (path ≠ "" →
      (restoreData repo path c).events.head? = some (Event.restoreData (some path))) ∧
    (∀ asked, Event.restoreData asked ∈ (restoreData repo path c).events →
      asked = askedPath path) := by
  rw [restoreData_of_ok repo path c d hd]
  refine ⟨rfl, rfl, rfl, rfl, getTrainingProgramList_eq _, rfl, ?_, ?_, ?_⟩
  · intro hp
    simp [askedPath, hp]
  · intro hp
    simp [askedPath, hp]
  · intro asked hmem
    rcases List.mem_cons.mp hmem with hhead | htail
    · cases hhead
      rfl
    · obtain ⟨r, _, hr⟩ := List.mem_map.mp htail
      cases hr

/-- Restoring the stored list with two programs over the object with three programs, from
the path "backup.json". -/
theorem restoreData_replaces_state_witness :
    (workingRepository storedList).restoreData (askedPath "backup.json") = .ok storedList ∧
    (restoreData (workingRepository storedList) "backup.json"
      controlWithThree).control._trainingProgramOrder = ["b", "a"] ∧
    (restoreData (workingRepository storedList) "backup.json"
      controlWithThree).control._trainingProgramData.keys = ["a", "b"] ∧
    getTrainingProgramList (restoreData (workingRepository storedList) "backup.json"
      controlWithThree).control = storedList ∧
    (restoreData (workingRepository storedList) "backup.json" controlWithThree).events.head? =
      some (Event.restoreData (some "backup.json")) :=
  have h := restoreData_replaces_state (workingRepository storedList) "backup.json"
    controlWithThree storedList rfl
  ⟨rfl, by rw [h.2.1]; decide, by rw [h.2.2.1]; decide, h.2.2.2.2.1,
    h.2.2.2.2.2.2.2.1 (by decide)⟩

/-- C13, as stated, fails. On the object with three programs, a `restoreData` call whose
repository call fails with `IOError` throws that failure and leaves an empty order and an
empty map. -/
theorem restoreData_failure_clears_state :
    controlWithThree._trainingProgramOrder = ["p1", "p2", "p3"] ∧
    controlWithThree._trainingProgramData.keys = ["p1", "p2", "p3"] ∧
    (restoreData failingRepository "" controlWithThree).result =
      .error (.repository .IOError) ∧
    (restoreData failingRepository "" controlWithThree).control._trainingProgramOrder = [] ∧
    (restoreData failingRepository "" controlWithThree).control._trainingProgramData.keys =
      [] := by
  decide

/-- C13, amended. When the repository call of `restoreData(path)` fails, that failure leaves
the call, no receiver is called, `storeData` is not called, and the location and the
receivers are as before the call; the order and the map were cleared before the repository
was asked and are left empty. -/
theorem restoreData_failure_surfaces (repo : ITrainingProgramRepository) (path : String)
    (c : TrainingProgramListConfigurationControl) (e : RepositoryError)
    (he : repo.restoreData (askedPath path) = .error e) :
    (restoreData repo path c).result = .error (.repository e) ∧
    (restoreData repo path c).events = [Event.restoreData (askedPath path)] ∧
    (restoreData repo path c).control._workshopFolderLocation = c._workshopFolderLocation ∧
    (restoreData repo path c).control._receivers = c._receivers ∧
    (restoreData repo path c).control._trainingProgramOrder = [] ∧
    (restoreData repo path c).control._trainingProgramData = StdMap.empty := by
  rw [restoreData_of_error repo path c e he]
  exact ⟨rfl, rfl, rfl, rfl, rfl, rfl⟩

/-- Restoring from a repository whose medium is unavailable, on the object with three
programs and a registered receiver. -/
theorem restoreData_failure_surfaces_witness :
    failingRepository.restoreData (askedPath "") = .error .IOError ∧
    (restoreData failingRepository "" controlWithThree).result =
      .error (.repository .IOError) ∧
    (restoreData failingRepository "" controlWithThree).events = [Event.restoreData none] ∧
    (restoreData failingRepository "" controlWithThree).control._receivers = [7] :=
  have h := restoreData_failure_surfaces failingRepository "" controlWithThree .IOError rfl
  ⟨rfl, h.1, h.2.1, by rw [h.2.2.2.1]; decide⟩

/-- C14, as stated, fails. With a repository whose `storeData` fails with `IOError`,
`addTrainingProgram` on the empty controller throws that failure and leaves the generated
id in the order and in the map; `removeTrainingProgram`, `swapTrainingPrograms`,
`injectTrainingProgram` and `changeWorkshopFolderLocation` on the object with three programs
throw it and leave their mutation in place as well. -/
theorem store_failure_leaves_mutation :
    (addTrainingProgram failingRepository "p" emptyControl).result =
      .error (.repository .IOError) ∧
    (addTrainingProgram failingRepository "p" emptyControl).control._trainingProgramOrder =
      ["p"] ∧
    (addTrainingProgram failingRepository "p" emptyControl).control._trainingProgramData.keys =
      ["p"] ∧
    emptyControl._trainingProgramOrder = [] ∧
    controlWithThree._trainingProgramOrder = ["p1", "p2", "p3"] ∧
    (removeTrainingProgram failingRepository "p2" controlWithThree).result =
      .error (.repository .IOError) ∧
    (removeTrainingProgram failingRepository "p2" controlWithThree).control._trainingProgramOrder
      = ["p1", "p3"] ∧
    (swapTrainingPrograms failingRepository "p1" "p2" controlWithThree).result =
      .error (.repository .IOError) ∧
    (swapTrainingPrograms failingRepository "p1" "p2"
      controlWithThree).control._trainingProgramOrder = ["p2", "p1", "p3"] ∧
    (injectTrainingProgram failingRepository ⟨"x", "Imported", 0, [], false⟩
      controlWithThree).result = .error (.repository .IOError) ∧
    (injectTrainingProgram failingRepository ⟨"x", "Imported", 0, [], false⟩
      controlWithThree).control._trainingProgramOrder = ["x", "p1", "p2", "p3"] ∧
    controlWithThree._workshopFolderLocation = "" ∧
    (changeWorkshopFolderLocation failingRepository "maps" controlWithThree).result =
      .error (.repository .IOError) ∧
    (changeWorkshopFolderLocation failingRepository "maps"
      controlWithThree).control._workshopFolderLocation = "maps" := by
  decide

/-- C14, amended. When a mutating call passes its own checks and its `storeData` call fails,
that failure leaves the call after one `receiveListData` per registration and the one
`storeData` call were made, and the object is the mutated one: the same object the call
leaves against any other repository, one whose `storeData` returns normally included. -/
theorem store_failure_surfaces_after_mutation (repo repo' : ITrainingProgramRepository)
    (call : Call) (c : TrainingProgramListConfigurationControl) (e : RepositoryError)
    (hvalid : ValidArguments call c)
    (hfail : repo.storeData (getTrainingProgramList (perform repo call c).control) = .error e) :
    (perform repo call c).result = .error (.repository e) ∧
    (perform repo call c).control = (perform repo' call c).control ∧
    (perform repo call c).events =
      c._receivers.map (fun receiver =>
        Event.receiveListData receiver (getTrainingProgramList (perform repo call c).control))
      ++ [Event.storeData (getTrainingProgramList (perform repo call c).control)] := by
  refine ⟨?_, perform_control_independent repo repo' call c,
    perform_events_of_valid repo call c hvalid⟩
  rw [perform_result_of_valid repo call c hvalid, storeOutcome_of_error repo _ e hfail]

/-- Removing "p2" from the object with three programs while the medium is unavailable. -/
theorem store_failure_surfaces_after_mutation_witness :
    ValidArguments (.removeTrainingProgram "p2") controlWithThree ∧
    (perform failingRepository (.removeTrainingProgram "p2") controlWithThree).result =
      .error (.repository .IOError) ∧
    (perform failingRepository (.removeTrainingProgram "p2") controlWithThree).control =
      (perform okRepository (.removeTrainingProgram "p2") controlWithThree).control ∧
    (perform okRepository (.removeTrainingProgram "p2")
      controlWithThree).control._trainingProgramOrder = ["p1", "p3"] :=
  have h := store_failure_surfaces_after_mutation failingRepository okRepository
    (.removeTrainingProgram "p2") controlWithThree .IOError (by decide) rfl
  ⟨by decide, h.1, h.2.1, by decide⟩

/-- C15. `loadTrainingProgram` is a best-effort import. When the chosen path does not exist,
when the content is no JSON document, and when the document does not decode as a training
program, the call returns normally, the whole object is as before and no collaborator is
called; only a document that decodes is handed to `injectTrainingProgram`. A document
decodes only if it is an object whose members `Id` and `Name` are strings, `Duration` is an
integer, `Entries` is an array of entries that decode and `ReadOnly` is a boolean; the
document with `Id` "y" and `Entries` "not-a-list" does not decode. -/
theorem loadTrainingProgram_best_effort (repo : ITrainingProgramRepository)
    (parse : String → Except JsonException Json) (serialized : String)
    (c : TrainingProgramListConfigurationControl) :
    loadTrainingProgram repo parse none c = ⟨.ok (), c, []⟩ ∧
    (∀ e, parse serialized = .error e →
      loadTrainingProgram repo parse (some serialized) c = ⟨.ok (), c, []⟩) ∧
    (∀ j e, parse serialized = .ok j → TrainingProgramData.from_json j = .error e →
      loadTrainingProgram repo parse (some serialized) c = ⟨.ok (), c, []⟩) ∧
    (∀ j data, parse serialized = .ok j → TrainingProgramData.from_json j = .ok data →
      loadTrainingProgram repo parse (some serialized) c =
        injectTrainingProgram repo data c) ∧
    (∀ j data, TrainingProgramData.from_json j = .ok data →
      ∃ members elements, j = .object members ∧
        lookupEntry "Id" members = some (.string data.Id) ∧
        lookupEntry "Name" members = some (.string data.Name) ∧
        lookupEntry "Duration" members = some (.number_integer data.Duration) ∧
        lookupEntry "Entries" members = some (.array elements) ∧
        Json.get_elements TrainingProgramEntry.from_json elements = .ok data.Entries ∧
        lookupEntry "ReadOnly" members = some (.boolean data.ReadOnly)) ∧
    TrainingProgramData.from_json
      (.object [("Entries", .string "not-a-list"), ("Id", .string "y")]) =
        .error .out_of_range ∧
    (parse serialized = .ok (.object [("Entries", .string "not-a-list"), ("Id", .string "y")]) →
      loadTrainingProgram repo parse (some serialized) c = ⟨.ok (), c, []⟩) := by
  refine ⟨rfl, ?_, ?_, ?_, data_from_json_ok, by decide, ?_⟩
  · intro e he
    simp [loadTrainingProgram, he]
  · intro j e hj he
    simp [loadTrainingProgram, hj, he]
  · intro j data hj hdata
    simp [loadTrainingProgram, hj, hdata]
  · intro hj
    have hdecode : TrainingProgramData.from_json
        (.object [("Entries", .string "not-a-list"), ("Id", .string "y")]) =
          .error .out_of_range := by decide
    simp [loadTrainingProgram, hj, hdecode]

/-- C16. Encoding a training program with the generated `to_json` and decoding the document
with the generated `from_json` gives the program back, equal in every field and with the
entries in the same order; the same holds for a single entry. The document holds the
members `Id`, `Name`, `Duration`, `Entries` and `ReadOnly`, the duration as the integer tick
count, and `saveTrainingProgram` hands exactly this document to the file for a known id. -/
theorem to_json_from_json_round_trip (r : TrainingProgramData) (t : TrainingProgramEntry)
    (id : String) (c : TrainingProgramListConfigurationControl) :
    TrainingProgramData.from_json r.to_json = .ok r ∧
    TrainingProgramEntry.from_json t.to_json = .ok t ∧
    r.to_json.atKey "Id" = .ok (.string r.Id) ∧
    r.to_json.atKey "Name" = .ok (.string r.Name) ∧
    r.to_json.atKey "Duration" = .ok (.number_integer r.Duration) ∧
    r.to_json.atKey "Entries" = .ok (.array (r.Entries.map TrainingProgramEntry.to_json)) ∧
    r.to_json.atKey "ReadOnly" = .ok (.boolean r.ReadOnly) ∧
    t.to_json.atKey "Name" = .ok (.string t.Name) ∧
    t.to_json.atKey "Duration" = .ok (.number_integer t.Duration) ∧
    t.to_json.atKey "Type" = .ok t.Type_.to_json ∧
    t.to_json.atKey "TrainingPackCode" = .ok (.string t.TrainingPackCode) ∧
    t.to_json.atKey "WorkshopMapPath" = .ok (.string t.WorkshopMapPath) ∧
    (c._trainingProgramData.find? id = some r →
      (saveTrainingProgram id c).result = .ok r.to_json) := by
  refine ⟨data_from_json_to_json r, entry_from_json_to_json t, ?_, ?_, ?_, ?_, ?_, ?_, ?_, ?_,
    ?_, ?_, ?_⟩
  · simp [TrainingProgramData.to_json, Json.atKey, lookupEntry_assignEntry]
  · simp [TrainingProgramData.to_json, Json.atKey, lookupEntry_assignEntry]
  · simp [TrainingProgramData.to_json, Json.atKey, lookupEntry_assignEntry,
      milliseconds_to_json]
  · simp [TrainingProgramData.to_json, Json.atKey, lookupEntry_assignEntry]
  · simp [TrainingProgramData.to_json, Json.atKey, lookupEntry_assignEntry]
  · simp [TrainingProgramEntry.to_json, Json.atKey, lookupEntry_assignEntry]
  · simp [TrainingProgramEntry.to_json, Json.atKey, lookupEntry_assignEntry,
      milliseconds_to_json]
  · simp [TrainingProgramEntry.to_json, Json.atKey, lookupEntry_assignEntry]
  · simp [TrainingProgramEntry.to_json, Json.atKey, lookupEntry_assignEntry]
  · simp [TrainingProgramEntry.to_json, Json.atKey, lookupEntry_assignEntry]
  · intro hfind
    simp [saveTrainingProgram, getTrainingProgramData_of_find? id c r hfind]

/-- C17, as stated, fails. After restoring a stored list whose map holds "a" and "b" and
whose order names only "a", `swapTrainingPrograms("a", "b")` throws a `std::runtime_error`,
and so does `swapTrainingPrograms("a", "zz")` for the unknown id "zz": the inconsistency fault
and the unknown-id error are objects of the same class. -/
theorem inconsistency_fault_shares_class :
    "a" ∈ controlWithMissingOrder._trainingProgramData.keys ∧
    "b" ∈ controlWithMissingOrder._trainingProgramData.keys ∧
    "b" ∉ controlWithMissingOrder._trainingProgramOrder ∧
    (swapTrainingPrograms okRepository "a" "b" controlWithMissingOrder).result =
      .error (.runtime_error "Training Program List is inconsistent") ∧
    (swapTrainingPrograms okRepository "a" "zz" controlWithMissingOrder).result =
      .error (.runtime_error
        "There is no training program with ID zz (parameter second training program ID)") ∧
    exceptionClass (.runtime_error "Training Program List is inconsistent") =
      exceptionClass (.runtime_error
        "There is no training program with ID zz (parameter second training program ID)") := by
  decide

/-- C17, amended. When `a` and `b` are keys of the map and at least one of them does not
occur in the order, `swapTrainingPrograms(a, b)` throws a `std::runtime_error` with the text
"Training Program List is inconsistent", which leaves the call; the whole object is as
before and no collaborator is called. The thrown object has the class of the unknown-id
error and differs from every unknown-id error by its text only. -/
theorem swapTrainingPrograms_inconsistent (repo : ITrainingProgramRepository)
    (c : TrainingProgramListConfigurationControl) (a b : String)
    (ha : a ∈ c._trainingProgramData.keys) (hb : b ∈ c._trainingProgramData.keys)
    (hmissing : a ∉ c._trainingProgramOrder ∨ b ∉ c._trainingProgramOrder) :
    swapTrainingPrograms repo a b c =
      ⟨.error (.runtime_error "Training Program List is inconsistent"), c, []⟩ ∧
    (∀ id parameterName,
      "Training Program List is inconsistent" ≠ unknownIdMessage id parameterName) ∧
    (∀ id parameterName,
      exceptionClass (.runtime_error "Training Program List is inconsistent") =
        exceptionClass (.runtime_error (unknownIdMessage id parameterName))) := by
  refine ⟨swapTrainingPrograms_of_not_in_order repo a b c ha hb ?_,
    inconsistent_ne_unknownIdMessage, fun _ _ => rfl⟩
  rintro ⟨hao, hbo⟩
  rcases hmissing with h | h
  · exact h hao
  · exact h hbo

/-- Swapping "a" and "b" on the object whose order names only "a". -/
theorem swapTrainingPrograms_inconsistent_witness :
    ("a" ∈ controlWithMissingOrder._trainingProgramData.keys ∧
      "b" ∈ controlWithMissingOrder._trainingProgramData.keys ∧
      "b" ∉ controlWithMissingOrder._trainingProgramOrder) ∧
    swapTrainingPrograms failingRepository "a" "b" controlWithMissingOrder =
      ⟨.error (.runtime_error "Training Program List is inconsistent"),
        controlWithMissingOrder, []⟩ :=
  have h := swapTrainingPrograms_inconsistent failingRepository controlWithMissingOrder "a" "b"
    (by decide) (by decide) (Or.inr (by decide))
  ⟨⟨by decide, by decide, by decide⟩, h.1⟩

/-- C18. The read accessors are pure. `getTrainingProgramList()` returns exactly the order,
the map and the location the object holds. `getTrainingProgramData(id)` returns the record
the map holds under a known `id` and throws the unknown-id error otherwise; in both cases
the whole object is as before (no key is inserted by `operator[]`) and no collaborator is
called. -/
theorem read_accessors_are_pure (c : TrainingProgramListConfigurationControl) (id : String) :
    getTrainingProgramList c =
      ⟨c._trainingProgramOrder, c._trainingProgramData, c._workshopFolderLocation⟩ ∧
    (∀ record, c._trainingProgramData.find? id = some record →
      getTrainingProgramData id c = ⟨.ok record, c, []⟩) ∧
    (id ∈ c._trainingProgramData.keys →
      ∃ record, c._trainingProgramData.find? id = some record ∧
        getTrainingProgramData id c = ⟨.ok record, c, []⟩) ∧
    (id ∉ c._trainingProgramData.keys →
      getTrainingProgramData id c =
        ⟨.error (.runtime_error (unknownIdMessage id "training program ID")), c, []⟩) ∧
    (getTrainingProgramData id c).control = c ∧
    (getTrainingProgramData id c).events = [] := by
  have hknown : id ∈ c._trainingProgramData.keys →
      ∃ record, c._trainingProgramData.find? id = some record ∧
        getTrainingProgramData id c = ⟨.ok record, c, []⟩ := by
    intro hid
    obtain ⟨record, hrecord⟩ :=
      Option.isSome_iff_exists.mp ((StdMap.mem_keys_iff _ _).mp hid)
    exact ⟨record, hrecord, getTrainingProgramData_of_find? id c record hrecord⟩
  refine ⟨getTrainingProgramList_eq c, getTrainingProgramData_of_find? id c, hknown,
    getTrainingProgramData_of_not_mem id c, ?_, ?_⟩
  · by_cases hid : id ∈ c._trainingProgramData.keys
    · obtain ⟨record, _, h⟩ := hknown hid
      rw [h]
    · rw [getTrainingProgramData_of_not_mem id c hid]
  · by_cases hid : id ∈ c._trainingProgramData.keys
    · obtain ⟨record, _, h⟩ := hknown hid
      rw [h]
    · rw [getTrainingProgramData_of_not_mem id c hid]

/-- C19, as stated, fails. After restoring a stored list whose map holds under the key "k"
a program whose `Id` is "other", `getTrainingProgramData("k")` returns that program and
injecting it puts "other" in front of the order and adds the key "other" to the map. -/
theorem inject_exported_program_changes_state :
    "k" ∈ controlWithForeignId._trainingProgramData.keys ∧
    controlWithForeignId._trainingProgramOrder = ["k"] ∧
    controlWithForeignId._trainingProgramData.keys = ["k"] ∧
    (getTrainingProgramData "k" controlWithForeignId).result =
      .ok ⟨"other", "X", 0, [], false⟩ ∧
    (injectTrainingProgram okRepository ⟨"other", "X", 0, [], false⟩
      controlWithForeignId).control._trainingProgramOrder = ["other", "k"] ∧
    (injectTrainingProgram okRepository ⟨"other", "X", 0, [], false⟩
      controlWithForeignId).control._trainingProgramData.keys = ["k", "other"] := by
  decide

/-- C19, amended. Injecting a record twice leaves the same object as injecting it once,
whatever the state and the repositories. When the map holds under the key `id` a record
whose `Id` is `id`, injecting what `getTrainingProgramData(id)` returns leaves the whole
object, so the order and the map, as it was. -/
theorem injectTrainingProgram_idempotent (repo repo' : ITrainingProgramRepository)
    (c : TrainingProgramListConfigurationControl) (r : TrainingProgramData) :
    (injectTrainingProgram repo' r (injectTrainingProgram repo r c).control).control =
      (injectTrainingProgram repo r c).control ∧
    (∀ id record, c._trainingProgramData.find? id = some record → record.Id = id →
      (getTrainingProgramData id c).result = .ok record ∧
      (injectTrainingProgram repo record c).control = c ∧
      (injectTrainingProgram repo record c).control._trainingProgramOrder =
        c._trainingProgramOrder ∧
      (injectTrainingProgram repo record c).control._trainingProgramData =
        c._trainingProgramData) := by
  have hagain : (injectTrainingProgram repo' r (injectTrainingProgram repo r c).control).control
      = (injectTrainingProgram repo r c).control := by
    have hgone : ∀ m : StdMap TrainingProgramData, r.Id ∉ (m.erase r.Id).keys := by
      intro m
      rw [StdMap.mem_keys_erase]
      exact fun h => h.1 rfl
    by_cases hr : r.Id ∈ c._trainingProgramData.keys
    · have hfirst := injectTrainingProgram_control_of_mem repo r c hr
      have hin : r.Id ∈ (injectTrainingProgram repo r c).control._trainingProgramData.keys := by
        rw [hfirst, StdMap.mem_keys_emplace]
        exact Or.inl rfl
      rw [injectTrainingProgram_control_of_mem repo' r _ hin, hfirst]
      simp only [StdMap.erase_emplace _ _ _ (hgone c._trainingProgramData)]
    · have hfirst := injectTrainingProgram_control_of_not_mem repo r c hr
      have hin : r.Id ∈ (injectTrainingProgram repo r c).control._trainingProgramData.keys := by
        rw [hfirst, StdMap.mem_keys_emplace]
        exact Or.inl rfl
      rw [injectTrainingProgram_control_of_mem repo' r _ hin, hfirst]
      simp only [StdMap.erase_emplace _ _ _ hr]
  refine ⟨hagain, ?_⟩
  intro id record hrecord hid
  have hkey : record.Id ∈ c._trainingProgramData.keys := by
    rw [hid, StdMap.mem_keys_iff, hrecord]
    rfl
  have hsame : (injectTrainingProgram repo record c).control = c := by
    rw [injectTrainingProgram_control_of_mem repo record c hkey, hid,
      StdMap.emplace_erase_self _ _ _ hrecord]
  refine ⟨?_, hsame, ?_, ?_⟩
  · rw [getTrainingProgramData_of_find? id c record hrecord]
  · rw [hsame]
  · rw [hsame]

/-- Exporting and injecting "p2" on the object with three programs, and injecting a new
program twice. -/
theorem injectTrainingProgram_idempotent_witness :
    (controlWithThree._trainingProgramData.find? "p2" =
        some ⟨"p2", "New Training Program", 0, [], false⟩) ∧
    (injectTrainingProgram okRepository ⟨"x", "Imported", 0, [], false⟩
      (injectTrainingProgram okRepository ⟨"x", "Imported", 0, [], false⟩
        controlWithThree).control).control._trainingProgramOrder = ["x", "p1", "p2", "p3"] ∧
    (injectTrainingProgram okRepository ⟨"p2", "New Training Program", 0, [], false⟩
      controlWithThree).control = controlWithThree :=
  have h := injectTrainingProgram_idempotent okRepository okRepository controlWithThree
    ⟨"x", "Imported", 0, [], false⟩
  ⟨by decide, by rw [h.1]; decide,
    (h.2 "p2" ⟨"p2", "New Training Program", 0, [], false⟩ (by decide) rfl).2.1⟩

/-- C20. On an object that satisfies the order/mapping invariant, when the generated id `g`
is not a key of the map, `addTrainingProgram` (which returns `g` when its store call returns
normally, and never anything else) followed by `removeTrainingProgram(g)` leaves the object
that was there before the first call, whatever the store calls do: the order, the map and
the location are restored. -/
theorem addTrainingProgram_then_removeTrainingProgram (repo repo' : ITrainingProgramRepository)
    (c : TrainingProgramListConfigurationControl) (g : String)
    (hc : Consistent c) (hg : g ∉ c._trainingProgramData.keys) :
    (repo.storeData (getTrainingProgramList (addTrainingProgram repo g c).control) = .ok () →
      (addTrainingProgram repo g c).result = .ok g) ∧
    (∀ id, (addTrainingProgram repo g c).result = .ok id → id = g) ∧
    (removeTrainingProgram repo' g (addTrainingProgram repo g c).control).control = c ∧
    (removeTrainingProgram repo' g
      (addTrainingProgram repo g c).control).control._trainingProgramOrder =
        c._trainingProgramOrder ∧
    (removeTrainingProgram repo' g
      (addTrainingProgram repo g c).control).control._trainingProgramData =
        c._trainingProgramData ∧
    (removeTrainingProgram repo' g
      (addTrainingProgram repo g c).control).control._workshopFolderLocation =
        c._workshopFolderLocation := by
  have hgo : g ∉ c._trainingProgramOrder := fun e => hg (((consistent_iff c).mp hc).2 g |>.mp e)
  have hin : g ∈ (addTrainingProgram repo g c).control._trainingProgramData.keys := by
    rw [addTrainingProgram_control, StdMap.mem_keys_emplace]
    exact Or.inl rfl
  have hback : (removeTrainingProgram repo' g (addTrainingProgram repo g c).control).control
      = c := by
    rw [removeTrainingProgram_control_of_mem repo' g _ hin, addTrainingProgram_control]
    simp only [StdMap.erase_emplace _ _ _ hg, List.erase_append_right _ hgo,
      List.erase_cons_head, List.append_nil]
  refine ⟨addTrainingProgram_result_of_ok repo g c,
    fun id h => addTrainingProgram_result_ok repo g id c h, hback, ?_, ?_, ?_⟩
  · rw [hback]
  · rw [hback]
  · rw [hback]

/-- Adding "p4" to the object with three programs and removing it again, the first store
call failing. -/
theorem addTrainingProgram_then_removeTrainingProgram_witness :
    (Consistent controlWithThree ∧ "p4" ∉ controlWithThree._trainingProgramData.keys) ∧
    (addTrainingProgram failingRepository "p4" controlWithThree).control._trainingProgramOrder =
      ["p1", "p2", "p3", "p4"] ∧
    (removeTrainingProgram okRepository "p4"
      (addTrainingProgram failingRepository "p4" controlWithThree).control).control =
        controlWithThree :=
  have h := addTrainingProgram_then_removeTrainingProgram failingRepository okRepository
    controlWithThree "p4" (by decide) (by decide)
  ⟨⟨by decide, by decide⟩, by decide, h.2.2.1⟩

end TrainingProgramListConfigurationControl

end configuration
